import Mathlib

/-!
Shallow embedding of the Servo display-list core
(src/components/gfx/display_list/mod.rs) for checking its specification.

Modelling conventions, used throughout:
* `Au` (app units, an `i32` newtype with 60 units per CSS px) is modelled as
  `Int`; none of the verified operations get close to `i32` overflow.
* `f32` values (colors, transforms, scroll offsets) are modelled as exact
  rationals `ℚ`; the only float fact the claims depend on is whether a
  determinant is exactly zero, which is exact for the inputs used.
* `StackingContextId` and `LayerId` (from gfx_traits, outside src/) are
  opaque ids with a distinguished root; modelled as `Nat` with root = 0.
* Rust `Vec` and slices are Lean `List`; `HashMap<StackingContextId, Vec<_>>`
  is a total function `Nat → List DisplayItem` (the only read in the source is
  `remove(..).unwrap_or(Vec::new())`, which cannot tell a missing key from an
  empty bucket, so a missing key is represented by `[]`).
* Payload fields that no modelled operation reads (text runs, image bytes,
  gradient stops, border colors and styles, ...) are left out of the item
  variants; every field that some modelled operation reads is kept.
-/

set_option maxHeartbeats 3200000
set_option maxRecDepth 8000

namespace Gfx

/-! ### Geometry primitives (euclid `Point2D`/`Size2D`/`Rect` over `Au`) -/

/-- Point with app-unit (`Au`, modelled as `Int`) coordinates. -/
structure AuPoint where
  x : Int
  y : Int
deriving DecidableEq, Repr

/-- Size with app-unit dimensions. -/
structure AuSize where
  width : Int
  height : Int
deriving DecidableEq, Repr

/-- Rectangle with app-unit origin and size. -/
structure AuRect where
  origin : AuPoint
  size : AuSize
deriving DecidableEq, Repr

/-- euclid `Rect::contains`: half-open membership test
`origin <= p && p < origin + size` componentwise. -/
def AuRect.contains (r : AuRect) (p : AuPoint) : Bool :=
  decide (r.origin.x ≤ p.x) && decide (p.x < r.origin.x + r.size.width) &&
  decide (r.origin.y ≤ p.y) && decide (p.y < r.origin.y + r.size.height)

/-- euclid `Rect::bottom_right` = origin + size. -/
def AuRect.bottom_right (r : AuRect) : AuPoint :=
  ⟨r.origin.x + r.size.width, r.origin.y + r.size.height⟩

/-- euclid `Rect::union`: returns the other operand when one size is exactly
zero, otherwise the bounding box through min/max of the corner coordinates. -/
def AuRect.union (r s : AuRect) : AuRect :=
  if r.size = ⟨0, 0⟩ then s
  else if s.size = ⟨0, 0⟩ then r
  else
    let ulx := min r.origin.x s.origin.x
    let uly := min r.origin.y s.origin.y
    let lrx := max (r.origin.x + r.size.width) (s.origin.x + s.size.width)
    let lry := max (r.origin.y + r.size.height) (s.origin.y + s.size.height)
    ⟨⟨ulx, uly⟩, ⟨lrx - ulx, lry - uly⟩⟩

/-- Membership of a point in a rectangle, as a proposition (the set of points
the half-open euclid `contains` test accepts). -/
def AuRect.mem (r : AuRect) (p : AuPoint) : Prop :=
  r.origin.x ≤ p.x ∧ p.x < r.origin.x + r.size.width ∧
  r.origin.y ≤ p.y ∧ p.y < r.origin.y + r.size.height

instance (r : AuRect) (p : AuPoint) : Decidable (r.mem p) := by
  unfold AuRect.mem; infer_instance

/-- Containment of rectangles as sets of points (the "superset" of the spec). -/
def AuRect.subsetOf (s r : AuRect) : Prop :=
  ∀ p : AuPoint, s.mem p → r.mem p

/-! ### Rational geometry (euclid over `f32`, modelled exactly) -/

/-- Point with rational (modelled `f32`) coordinates. -/
structure QPoint where
  x : ℚ
  y : ℚ
deriving DecidableEq, Repr

/-- Rectangle with rational origin and size. -/
structure QRect where
  origin : QPoint
  size : QPoint
deriving DecidableEq, Repr

/-- euclid `Matrix4D<f32>`, row-vector convention, entries modelled as `ℚ`. -/
structure Matrix4 where
  m11 : ℚ
  m12 : ℚ
  m13 : ℚ
  m14 : ℚ
  m21 : ℚ
  m22 : ℚ
  m23 : ℚ
  m24 : ℚ
  m31 : ℚ
  m32 : ℚ
  m33 : ℚ
  m34 : ℚ
  m41 : ℚ
  m42 : ℚ
  m43 : ℚ
  m44 : ℚ
deriving DecidableEq, Repr

/-- euclid `Matrix2D<f32>` (the six affine entries), as produced by `to_2d`. -/
structure Matrix2 where
  m11 : ℚ
  m12 : ℚ
  m21 : ℚ
  m22 : ℚ
  m41 : ℚ
  m42 : ℚ
deriving DecidableEq, Repr

/-- Determinant of a 3x3 matrix given row by row; helper for the 4x4 cofactors. -/
def det3 (a b c d e f g h i : ℚ) : ℚ :=
  a * (e * i - f * h) - b * (d * i - f * g) + c * (d * h - e * g)

/-- euclid `Matrix4D::determinant` (cofactor expansion along the first row). -/
def Matrix4.det (m : Matrix4) : ℚ :=
  m.m11 * det3 m.m22 m.m23 m.m24 m.m32 m.m33 m.m34 m.m42 m.m43 m.m44
  - m.m12 * det3 m.m21 m.m23 m.m24 m.m31 m.m33 m.m34 m.m41 m.m43 m.m44
  + m.m13 * det3 m.m21 m.m22 m.m24 m.m31 m.m32 m.m34 m.m41 m.m42 m.m44
  - m.m14 * det3 m.m21 m.m22 m.m23 m.m31 m.m32 m.m33 m.m41 m.m42 m.m43

/-- euclid `Matrix4D::inverse`: `None` when the determinant is zero, otherwise
the transposed cofactor matrix divided by the determinant. -/
def Matrix4.inverse (m : Matrix4) : Option Matrix4 :=
  let d := m.det
  if d = 0 then none
  else
    -- cofactor C i j of entry (row i, col j); inverse entry (i, j) = C j i / d
    let c11 := det3 m.m22 m.m23 m.m24 m.m32 m.m33 m.m34 m.m42 m.m43 m.m44
    let c12 := - det3 m.m21 m.m23 m.m24 m.m31 m.m33 m.m34 m.m41 m.m43 m.m44
    let c13 := det3 m.m21 m.m22 m.m24 m.m31 m.m32 m.m34 m.m41 m.m42 m.m44
    let c14 := - det3 m.m21 m.m22 m.m23 m.m31 m.m32 m.m33 m.m41 m.m42 m.m43
    let c21 := - det3 m.m12 m.m13 m.m14 m.m32 m.m33 m.m34 m.m42 m.m43 m.m44
    let c22 := det3 m.m11 m.m13 m.m14 m.m31 m.m33 m.m34 m.m41 m.m43 m.m44
    let c23 := - det3 m.m11 m.m12 m.m14 m.m31 m.m32 m.m34 m.m41 m.m42 m.m44
    let c24 := det3 m.m11 m.m12 m.m13 m.m31 m.m32 m.m33 m.m41 m.m42 m.m43
    let c31 := det3 m.m12 m.m13 m.m14 m.m22 m.m23 m.m24 m.m42 m.m43 m.m44
    let c32 := - det3 m.m11 m.m13 m.m14 m.m21 m.m23 m.m24 m.m41 m.m43 m.m44
    let c33 := det3 m.m11 m.m12 m.m14 m.m21 m.m22 m.m24 m.m41 m.m42 m.m44
    let c34 := - det3 m.m11 m.m12 m.m13 m.m21 m.m22 m.m23 m.m41 m.m42 m.m43
    let c41 := - det3 m.m12 m.m13 m.m14 m.m22 m.m23 m.m24 m.m32 m.m33 m.m34
    let c42 := det3 m.m11 m.m13 m.m14 m.m21 m.m23 m.m24 m.m31 m.m33 m.m34
    let c43 := - det3 m.m11 m.m12 m.m14 m.m21 m.m22 m.m24 m.m31 m.m32 m.m34
    let c44 := det3 m.m11 m.m12 m.m13 m.m21 m.m22 m.m23 m.m31 m.m32 m.m33
    some ⟨c11 / d, c21 / d, c31 / d, c41 / d,
          c12 / d, c22 / d, c32 / d, c42 / d,
          c13 / d, c23 / d, c33 / d, c43 / d,
          c14 / d, c24 / d, c34 / d, c44 / d⟩

/-- The identity 4x4 matrix. -/
def Matrix4.identity : Matrix4 :=
  ⟨1, 0, 0, 0, 0, 1, 0, 0, 0, 0, 1, 0, 0, 0, 0, 1⟩

/-- Matrix product (row-vector convention: `a` applied first in `mul a b`). -/
def Matrix4.mul (a b : Matrix4) : Matrix4 :=
  ⟨a.m11 * b.m11 + a.m12 * b.m21 + a.m13 * b.m31 + a.m14 * b.m41,
   a.m11 * b.m12 + a.m12 * b.m22 + a.m13 * b.m32 + a.m14 * b.m42,
   a.m11 * b.m13 + a.m12 * b.m23 + a.m13 * b.m33 + a.m14 * b.m43,
   a.m11 * b.m14 + a.m12 * b.m24 + a.m13 * b.m34 + a.m14 * b.m44,
   a.m21 * b.m11 + a.m22 * b.m21 + a.m23 * b.m31 + a.m24 * b.m41,
   a.m21 * b.m12 + a.m22 * b.m22 + a.m23 * b.m32 + a.m24 * b.m42,
   a.m21 * b.m13 + a.m22 * b.m23 + a.m23 * b.m33 + a.m24 * b.m43,
   a.m21 * b.m14 + a.m22 * b.m24 + a.m23 * b.m34 + a.m24 * b.m44,
   a.m31 * b.m11 + a.m32 * b.m21 + a.m33 * b.m31 + a.m34 * b.m41,
   a.m31 * b.m12 + a.m32 * b.m22 + a.m33 * b.m32 + a.m34 * b.m42,
   a.m31 * b.m13 + a.m32 * b.m23 + a.m33 * b.m33 + a.m34 * b.m43,
   a.m31 * b.m14 + a.m32 * b.m24 + a.m33 * b.m34 + a.m34 * b.m44,
   a.m41 * b.m11 + a.m42 * b.m21 + a.m43 * b.m31 + a.m44 * b.m41,
   a.m41 * b.m12 + a.m42 * b.m22 + a.m43 * b.m32 + a.m44 * b.m42,
   a.m41 * b.m13 + a.m42 * b.m23 + a.m43 * b.m33 + a.m44 * b.m43,
   a.m41 * b.m14 + a.m42 * b.m24 + a.m43 * b.m34 + a.m44 * b.m44⟩

/-- euclid `pre_mul`: the argument transform is applied before `self`. -/
def Matrix4.pre_mul (m other : Matrix4) : Matrix4 := Matrix4.mul other m

/-- The translation matrix of euclid `Matrix4D::create_translation`
(row-vector convention: the offsets sit in the fourth row). -/
def Matrix4.create_translation (x y z : ℚ) : Matrix4 :=
  ⟨1, 0, 0, 0, 0, 1, 0, 0, 0, 0, 1, 0, x, y, z, 1⟩

/-- euclid `pre_translated`: pre-multiply by a translation. -/
def Matrix4.pre_translated (m : Matrix4) (x y z : ℚ) : Matrix4 :=
  m.pre_mul (Matrix4.create_translation x y z)

/-- euclid `Matrix4D::transform_point` on a 2D point (row-vector convention,
only the affine 2D part of the matrix participates). -/
def Matrix4.transform_point (m : Matrix4) (p : QPoint) : QPoint :=
  ⟨p.x * m.m11 + p.y * m.m21 + m.m41, p.x * m.m12 + p.y * m.m22 + m.m42⟩

/-- euclid `Matrix4D::to_2d`: project to the six affine 2D entries. -/
def Matrix4.to_2d (m : Matrix4) : Matrix2 :=
  ⟨m.m11, m.m12, m.m21, m.m22, m.m41, m.m42⟩

/-- euclid `Matrix2D::transform_point`. -/
def Matrix2.transform_point (m : Matrix2) (p : QPoint) : QPoint :=
  ⟨p.x * m.m11 + p.y * m.m21 + m.m41, p.x * m.m12 + p.y * m.m22 + m.m42⟩

/-- euclid `Matrix2D::transform_rect`: the bounding box of the four
transformed corners of the rectangle. -/
def Matrix2.transform_rect (m : Matrix2) (r : QRect) : QRect :=
  let p1 := m.transform_point r.origin
  let p2 := m.transform_point ⟨r.origin.x + r.size.x, r.origin.y⟩
  let p3 := m.transform_point ⟨r.origin.x, r.origin.y + r.size.y⟩
  let p4 := m.transform_point ⟨r.origin.x + r.size.x, r.origin.y + r.size.y⟩
  let minx := min (min p1.x p2.x) (min p3.x p4.x)
  let miny := min (min p1.y p2.y) (min p3.y p4.y)
  let maxx := max (max p1.x p2.x) (max p3.x p4.x)
  let maxy := max (max p1.y p2.y) (max p3.y p4.y)
  ⟨⟨minx, miny⟩, ⟨maxx - minx, maxy - miny⟩⟩

/-! ### App-unit / float conversions (`app_units::Au` and util::geometry) -/

/-- app_units `Au::to_f32_px`: divide by 60 app units per px. -/
def auToF32Px (a : Int) : ℚ := (a : ℚ) / 60

/-- app_units `Au::from_f32_px`: `Au((px * 60.0) as i32)`; the `as` cast
truncates toward zero, which for an exact rational is `Rat.num / Rat.den`
with truncating integer division. -/
def auFromF32Px (q : ℚ) : Int := Int.tdiv (q * 60).num ((q * 60).den : Int)

/-- Modelled from the spec: util::geometry `au_rect_to_f32_rect` (module is
outside src/); every coordinate converted with `to_f32_px` (60 au per px). -/
def auRectToF32Rect (r : AuRect) : QRect :=
  ⟨⟨auToF32Px r.origin.x, auToF32Px r.origin.y⟩,
   ⟨auToF32Px r.size.width, auToF32Px r.size.height⟩⟩

/-- Modelled from the spec: util::geometry `f32_rect_to_au_rect` (module is
outside src/); every coordinate converted with `from_f32_px`. -/
def f32RectToAuRect (r : QRect) : AuRect :=
  ⟨⟨auFromF32Px r.origin.x, auFromF32Px r.origin.y⟩,
   ⟨auFromF32Px r.size.x, auFromF32Px r.size.y⟩⟩

/-- Modelled from the spec: util::geometry `max_rect` (module is outside
src/), the implementation-defined very large rect used by
`ClippingRegion::max`: origin at `i32::MIN / 2`, size `i32::MAX`. -/
def maxRect : AuRect := ⟨⟨-1073741824, -1073741824⟩, ⟨2147483647, 2147483647⟩⟩

/-! ### Clipping regions -/

/-- `BorderRadii<Au>`: four corner radii, each a 2D size. -/
structure BorderRadii where
  top_left : AuSize
  top_right : AuSize
  bottom_right : AuSize
  bottom_left : AuSize
deriving DecidableEq, Repr

/-- `ComplexClippingRegion`: a rounded rectangle. -/
structure ComplexClippingRegion where
  rect : AuRect
  radii : BorderRadii
deriving DecidableEq, Repr

/-- `ClippingRegion`: a main rectangle intersected with complex regions. -/
structure ClippingRegion where
  main : AuRect
  complex : List ComplexClippingRegion
deriving DecidableEq, Repr

/-- `ClippingRegion::max()`: clips no pixels out. -/
def ClippingRegion.max : ClippingRegion := ⟨maxRect, []⟩

/-- `ClippingRegion::might_intersect_point`: the point is inside `main` and
inside every complex rect (conservative, radii ignored). -/
def ClippingRegion.might_intersect_point (c : ClippingRegion) (p : AuPoint) : Bool :=
  c.main.contains p && c.complex.all fun cx => cx.rect.contains p

/-- `ClippingRegion::does_not_clip_rect`: `main` and every complex rect
contain both the origin and the bottom-right corner of the rect. -/
def ClippingRegion.does_not_clip_rect (c : ClippingRegion) (r : AuRect) : Bool :=
  c.main.contains r.origin && c.main.contains r.bottom_right &&
    c.complex.all fun cx => cx.rect.contains r.origin && cx.rect.contains r.bottom_right

/-! ### Display-item shared data -/

/-- `DisplayListSection`, the Appendix E bucket of an item. -/
inductive DisplayListSection where
  | BackgroundAndBorders
  | BlockBackgroundsAndBorders
  | Content
  | Outlines
deriving DecidableEq, Repr

/-- The rank a `#[derive(Ord)]` on `DisplayListSection` compares by
(declaration order of the variants). -/
def DisplayListSection.rank : DisplayListSection → Nat
  | .BackgroundAndBorders => 0
  | .BlockBackgroundsAndBorders => 1
  | .Content => 2
  | .Outlines => 3

/-- `StackingContextType`. -/
inductive StackingContextType where
  | Real
  | PseudoPositioned
  | PseudoFloat
deriving DecidableEq, Repr

/-- `ScrollPolicy` (from gfx_traits, outside src/; the spec asks for at least
these two variants). -/
inductive ScrollPolicy where
  | Scrollable
  | FixedPosition
deriving DecidableEq, Repr

/-- azure `Color` (four `f32` channels, modelled as rationals). -/
structure Color where
  r : ℚ
  g : ℚ
  b : ℚ
  a : ℚ
deriving DecidableEq, Repr

/-- `LayerInfo` carried by a stacking context that becomes a compositor
layer; `LayerId` is opaque and modelled as `Nat`. -/
structure LayerInfo where
  layer_id : Nat
  scroll_policy : ScrollPolicy
  subpage_pipeline_id : Option Nat
  next_layer_id : Nat
  background_color : Color
deriving DecidableEq, Repr

/-- `DisplayItemMetadata`: originating DOM node (opaque) and the cursor;
`pointing = none` encodes pointer-events: none. The cursor kind is opaque
and modelled as `Nat`. -/
structure DisplayItemMetadata where
  node : Nat
  pointing : Option Nat
deriving DecidableEq, Repr

/-- The id `StackingContextId::root()` (gfx_traits, outside src/): the
distinguished root id, modelled as 0. -/
def rootStackingContextId : Nat := 0

/-- The non-recursive fields of `StackingContext`, grouped so that the
recursive `children` list can live in an inductive. Field names and order
follow the source struct; `filters` and `blend_mode` are opaque style values
no modelled operation inspects, kept as `List Nat` and `Nat`. -/
structure SCData where
  id : Nat
  context_type : StackingContextType
  bounds : AuRect
  overflow : AuRect
  z_index : Int
  filters : List Nat
  blend_mode : Nat
  transform : Matrix4
  perspective : Matrix4
  establishes_3d_context : Bool
  layer_info : Option LayerInfo
  overflow_scroll_id : Option Nat
deriving Repr

/-- `StackingContext`: the data fields plus the owned children. -/
inductive StackingContext where
  | mk (data : SCData) (children : List StackingContext)

/-- Field projection for the data part. -/
def StackingContext.data : StackingContext → SCData
  | .mk d _ => d

/-- Field projection for the children list. -/
def StackingContext.children : StackingContext → List StackingContext
  | .mk _ c => c

def StackingContext.id (sc : StackingContext) : Nat := sc.data.id

def StackingContext.context_type (sc : StackingContext) : StackingContextType :=
  sc.data.context_type

def StackingContext.bounds (sc : StackingContext) : AuRect := sc.data.bounds

def StackingContext.overflow (sc : StackingContext) : AuRect := sc.data.overflow

def StackingContext.z_index (sc : StackingContext) : Int := sc.data.z_index

def StackingContext.transform (sc : StackingContext) : Matrix4 := sc.data.transform

def StackingContext.layer_info (sc : StackingContext) : Option LayerInfo :=
  sc.data.layer_info

/-! ### Display items -/

/-- Side offsets (border widths): top, right, bottom, left, in `Au`. -/
structure SideOffsetsAu where
  top : Int
  right : Int
  bottom : Int
  left : Int
deriving DecidableEq, Repr

/-- `BaseDisplayItem`: fields common to all display items. The source field
named `section` is called `sect` here because `section` is a Lean keyword. -/
structure BaseDisplayItem where
  bounds : AuRect
  metadata : DisplayItemMetadata
  clip : ClippingRegion
  sect : DisplayListSection
  stacking_context_id : Nat
deriving DecidableEq, Repr

/-- `BaseDisplayItem::new`: canonicalizes a clip that does not clip the
bounds to `ClippingRegion::max()`. -/
def BaseDisplayItem.new (bounds : AuRect) (metadata : DisplayItemMetadata)
    (clip : ClippingRegion) (sect : DisplayListSection)
    (stacking_context_id : Nat) : BaseDisplayItem :=
  ⟨bounds, metadata,
   if clip.does_not_clip_rect bounds then ClippingRegion.max else clip,
   sect, stacking_context_id⟩

/-- `BaseDisplayItem::empty`. -/
def BaseDisplayItem.empty : BaseDisplayItem :=
  ⟨⟨⟨0, 0⟩, ⟨0, 0⟩⟩, ⟨0, none⟩, ClippingRegion.max,
   DisplayListSection.Content, rootStackingContextId⟩

/-- `BoxShadowClipMode`. -/
inductive BoxShadowClipMode where
  | NoClip
  | Outset
  | Inset
deriving DecidableEq, Repr

/-- `DisplayItem`: the tagged variant of paint commands. Payload fields that
no modelled operation reads are left out (see the header comment); every
variant keeps its `base`, `Border` keeps the widths and radii used by
hit-testing, `BoxShadow` keeps its geometry, the two markers carry the
stacking context and its id respectively. -/
inductive DisplayItem where
  | SolidColor (base : BaseDisplayItem) (color : Color)
  | Text (base : BaseDisplayItem) (text_color : Color) (blur_radius : Int)
  | Image (base : BaseDisplayItem)
  | WebGL (base : BaseDisplayItem) (context_id : Nat)
  | Border (base : BaseDisplayItem) (border_widths : SideOffsetsAu)
      (radius : BorderRadii)
  | Gradient (base : BaseDisplayItem)
  | Line (base : BaseDisplayItem) (color : Color)
  | BoxShadow (base : BaseDisplayItem) (box_bounds : AuRect) (offset : AuPoint)
      (color : Color) (blur_radius : Int) (spread_radius : Int)
      (border_radius : Int) (clip_mode : BoxShadowClipMode)
  | Iframe (base : BaseDisplayItem) (iframe : Nat)
  | PushStackingContext (base : BaseDisplayItem) (stacking_context : StackingContext)
  | PopStackingContext (base : BaseDisplayItem) (stacking_context_id : Nat)

/-- `DisplayItem::base`: projection of the shared base. -/
def DisplayItem.base : DisplayItem → BaseDisplayItem
  | .SolidColor b _ => b
  | .Text b _ _ => b
  | .Image b => b
  | .WebGL b _ => b
  | .Border b _ _ => b
  | .Gradient b => b
  | .Line b _ => b
  | .BoxShadow b _ _ _ _ _ _ _ => b
  | .Iframe b _ => b
  | .PushStackingContext b _ => b
  | .PopStackingContext b _ => b

/-- `DisplayItem::stacking_context_id`. -/
def DisplayItem.stacking_context_id (it : DisplayItem) : Nat :=
  it.base.stacking_context_id

/-- `DisplayItem::section`. -/
def DisplayItem.sect (it : DisplayItem) : DisplayListSection := it.base.sect

/-- `DisplayItem::bounds`. -/
def DisplayItem.bounds (it : DisplayItem) : AuRect := it.base.bounds

/-- True exactly on the two stacking-context bracket markers. -/
def DisplayItem.isMarker : DisplayItem → Bool
  | .PushStackingContext _ _ => true
  | .PopStackingContext _ _ => true
  | _ => false

/-- True exactly on `PushStackingContext`. -/
def DisplayItem.isPush : DisplayItem → Bool
  | .PushStackingContext _ _ => true
  | _ => false

/-- True exactly on `PopStackingContext`. -/
def DisplayItem.isPop : DisplayItem → Bool
  | .PopStackingContext _ _ => true
  | _ => false

/-! ### StackingContext operations -/

/-- `Ord for StackingContext::cmp`: z-index first when either is non-zero,
otherwise pseudo-float contexts sort before everything else. -/
def scCmp (a b : StackingContext) : Ordering :=
  if a.z_index ≠ 0 ∨ b.z_index ≠ 0 then compare a.z_index b.z_index
  else
    match a.context_type, b.context_type with
    | .PseudoFloat, .PseudoFloat => .eq
    | .PseudoFloat, _ => .lt
    | _, .PseudoFloat => .gt
    | _, _ => .eq

/-- The non-strict order associated with `scCmp`; `Vec::sort` is a stable
sort with respect to this relation, which the embedding realizes with the
(equally stable) `List.insertionSort`. -/
def scLe (a b : StackingContext) : Prop := scCmp a b ≠ Ordering.gt

instance : DecidableRel scLe := fun a b => by unfold scLe; infer_instance

/-- The comparator of `child_items.sort_by(|a, b| a.base().section.cmp(..))`,
as a non-strict order on items (again realized with a stable insertion
sort). -/
def itemSecLe (a b : DisplayItem) : Prop := a.sect.rank ≤ b.sect.rank

instance : DecidableRel itemSecLe := fun a b => by unfold itemSecLe; infer_instance

instance : IsTotal DisplayItem itemSecLe :=
  ⟨fun a b => Nat.le_total a.sect.rank b.sect.rank⟩

instance : IsTrans DisplayItem itemSecLe :=
  ⟨fun _ _ _ h1 h2 => Nat.le_trans h1 h2⟩

/-- `StackingContext::overflow_rect_in_parent_space`: translate by the bounds
origin, compose with the own transform, project to 2D, and map the overflow
rect through it (float math modelled as exact rationals). -/
def StackingContext.overflow_rect_in_parent_space (sc : StackingContext) : AuRect :=
  let origin_x := auToF32Px sc.bounds.origin.x
  let origin_y := auToF32Px sc.bounds.origin.y
  let transform := (Matrix4.identity.pre_translated origin_x origin_y 0).pre_mul
    sc.transform
  let transform_2d := transform.to_2d
  f32RectToAuRect (transform_2d.transform_rect (auRectToF32Rect sc.overflow))

/-- `StackingContext::update_overflow_for_all_children`: for every child,
when both this context and the child are Real, grow the own overflow by the
union with the overflow rect of the child in this space. -/
def StackingContext.update_overflow_for_all_children :
    StackingContext → StackingContext
  | .mk d cs =>
    .mk { d with
          overflow := cs.foldl
            (fun acc child =>
              if d.context_type = StackingContextType.Real ∧
                 child.context_type = StackingContextType.Real then
                acc.union child.overflow_rect_in_parent_space
              else acc)
            d.overflow }
      cs

/-- `StackingContext::add_child`: bubble the overflow of the grandchildren
into the child being added, then append it to the children. -/
def StackingContext.add_child (sc child : StackingContext) : StackingContext :=
  match sc with
  | .mk d cs => .mk d (cs ++ [child.update_overflow_for_all_children])

/-! ### Per-item hit testing (`DisplayItem::hit_test`) -/

/-- The interior rectangle of a border item: the bounds inset by the four
border widths. -/
def borderInteriorRect (bounds : AuRect) (w : SideOffsetsAu) : AuRect :=
  ⟨⟨bounds.origin.x + w.left, bounds.origin.y + w.top⟩,
   ⟨bounds.size.width - (w.left + w.right),
    bounds.size.height - (w.top + w.bottom)⟩⟩

/-- `DisplayItem::hit_test`: clip test, bounds test, pointer-events test,
then the per-variant rules (border band only for `Border`, never for
`BoxShadow`). -/
def DisplayItem.hit_test (it : DisplayItem) (point : AuPoint) :
    Option DisplayItemMetadata :=
  if ¬ (it.base.clip.might_intersect_point point) then none
  else if ¬ (it.bounds.contains point) then none
  else if it.base.metadata.pointing.isNone then none
  else
    match it with
    | .Border b w _ =>
      if (borderInteriorRect b.bounds w).contains point then none
      else some b.metadata
    | .BoxShadow _ _ _ _ _ _ _ _ => none
    | _ => some it.base.metadata

/-! ### The item pool (`HashMap<StackingContextId, Vec<DisplayItem>>`) -/

/-- The pool of display items keyed by stacking-context id. -/
def Pool := Nat → List DisplayItem

/-- The pool built by `DisplayList::new`: push every item onto the bucket of
its `stacking_context_id`, preserving input order within a bucket. -/
def mappedItems (all_items : List DisplayItem) : Pool :=
  fun id => all_items.filter fun it => it.stacking_context_id == id

/-- `HashMap::remove(&id).unwrap_or(Vec::new())` followed by threading the
map on: yields the bucket and the pool with that bucket deleted. -/
def Pool.removeBucket (pool : Pool) (id : Nat) : List DisplayItem × Pool :=
  (pool id, fun j => if j = id then [] else pool j)

/-- The loop `while child_items.last() satisfies p: list.push(pop())` on a
vector: items are taken from the tail while they satisfy `p`; the first
component is the run in pop order, the second the remaining vector. -/
def popLastWhile (p : DisplayItem → Bool) (rev : List DisplayItem) :
    List DisplayItem × List DisplayItem :=
  (rev.reverse.takeWhile p, (rev.reverse.dropWhile p).reverse)

/-- The predicate of the step 1 and 2 loop:
`child.section() == DisplayListSection::BackgroundAndBorders`. -/
def secIsBg (it : DisplayItem) : Bool :=
  it.sect == DisplayListSection.BackgroundAndBorders

/-- The predicate of the step 4 loop. -/
def secIsBlock (it : DisplayItem) : Bool :=
  it.sect == DisplayListSection.BlockBackgroundsAndBorders

/-- The predicate of the step 6 and 7 loop. -/
def secIsContent (it : DisplayItem) : Bool :=
  it.sect == DisplayListSection.Content

/-- The predicate of the step 3 loop: `child.z_index < 0`. -/
def zIndexNeg (c : StackingContext) : Bool := decide (c.z_index < 0)

/-- The predicate of the step 5 loop:
`child.context_type == StackingContextType::PseudoFloat`. -/
def ctxIsPseudoFloat (c : StackingContext) : Bool :=
  c.context_type == StackingContextType.PseudoFloat

/-! Size helpers for the termination of the tree recursion. -/

theorem sizeOf_le_of_sublist {α : Type} [SizeOf α] {l₁ l₂ : List α}
    (h : l₁.Sublist l₂) : sizeOf l₁ ≤ sizeOf l₂ := by
  induction h with
  | slnil => exact Nat.le_refl _
  | cons a _ ih => simp only [List.cons.sizeOf_spec]; omega
  | cons₂ a _ ih => simp only [List.cons.sizeOf_spec]; omega

theorem sizeOf_eq_of_perm {α : Type} [SizeOf α] {l₁ l₂ : List α}
    (h : l₁.Perm l₂) : sizeOf l₁ = sizeOf l₂ := by
  induction h with
  | nil => rfl
  | cons a _ ih => simp only [List.cons.sizeOf_spec]; omega
  | swap a b l => simp only [List.cons.sizeOf_spec]; omega
  | trans _ _ ih₁ ih₂ => omega

theorem sizeOf_insertionSort_children (children0 : List StackingContext) :
    sizeOf (List.insertionSort scLe children0) = sizeOf children0 :=
  sizeOf_eq_of_perm (List.perm_insertionSort scLe children0)

theorem sizeOf_group_lt (d : SCData) (cs : List StackingContext)
    {g : List StackingContext} (h : g.Sublist (List.insertionSort scLe cs)) :
    sizeOf g < sizeOf (StackingContext.mk d cs) := by
  have h1 : sizeOf g ≤ sizeOf (List.insertionSort scLe cs) :=
    sizeOf_le_of_sublist h
  have h2 := sizeOf_insertionSort_children cs
  simp only [StackingContext.mk.sizeOf_spec]
  omega

/-! ### The list builder (`DisplayList::generate_display_list`) -/

mutual

/-- `DisplayList::generate_display_list` for one stacking context: sort the
children (stable, by the `Ord` of 4.2), remove the own bucket from the pool,
sort it by section and reverse it, then interleave items and children in the
Appendix E order, bracketing with Push/Pop exactly when the context is Real.
The output list and the threaded pool are returned (the Rust code mutates
`list` and `mapped_items` in place). -/
def generate_display_list (pool : Pool) : StackingContext → List DisplayItem × Pool
  | .mk data children0 =>
    let child_stacking_contexts := List.insertionSort scLe children0
    let removed := Pool.removeBucket pool data.id
    let child_items := (List.insertionSort itemSecLe removed.1).reverse
    let pushPart :=
      if data.context_type = StackingContextType.Real then
        [DisplayItem.PushStackingContext BaseDisplayItem.empty
          (StackingContext.mk data [])]
      else []
    -- Steps 1 and 2: borders and background for the root.
    let s12 := popLastWhile secIsBg child_items
    -- Step 3: positioned descendants with negative z-indices.
    let negChildren := child_stacking_contexts.takeWhile zIndexNeg
    let restChildren1 := child_stacking_contexts.dropWhile zIndexNeg
    let g3 := generate_display_list_forest removed.2 negChildren
    -- Step 4: block backgrounds and borders.
    let s4 := popLastWhile secIsBlock s12.2
    -- Step 5: floats.
    let floatChildren := restChildren1.takeWhile ctxIsPseudoFloat
    let restChildren2 := restChildren1.dropWhile ctxIsPseudoFloat
    let g5 := generate_display_list_forest g3.2 floatChildren
    -- Steps 6 and 7: content and inlines that generate stacking contexts.
    let s67 := popLastWhile secIsContent s4.2
    -- Steps 8 and 9: positioned descendants with nonnegative z-indices.
    let g89 := generate_display_list_forest g5.2 restChildren2
    -- Step 10: outlines (`list.extend(child_items)` on the remaining,
    -- still reversed, vector).
    let popPart :=
      if data.context_type = StackingContextType.Real then
        [DisplayItem.PopStackingContext BaseDisplayItem.empty data.id]
      else []
    (pushPart ++ s12.1 ++ g3.1 ++ s4.1 ++ g5.1 ++ s67.1 ++ g89.1 ++ s67.2
       ++ popPart,
     g89.2)
termination_by sc => sizeOf sc
decreasing_by
  · exact sizeOf_group_lt _ _ (List.takeWhile_sublist _)
  · exact sizeOf_group_lt _ _
      ((List.takeWhile_sublist _).trans (List.dropWhile_sublist _))
  · exact sizeOf_group_lt _ _
      ((List.dropWhile_sublist _).trans (List.dropWhile_sublist _))

/-- Sequential recursion into a list of child stacking contexts, threading
the item pool left to right. -/
def generate_display_list_forest (pool : Pool) :
    List StackingContext → List DisplayItem × Pool
  | [] => ([], pool)
  | c :: rest =>
    let p := generate_display_list pool c
    let q := generate_display_list_forest p.2 rest
    (p.1 ++ q.1, q.2)
termination_by l => sizeOf l
decreasing_by
  · simp only [List.cons.sizeOf_spec]; omega
  · simp only [List.cons.sizeOf_spec]; omega

end

/-- The ordered display list (`DisplayList`). -/
structure DisplayList where
  list : List DisplayItem

/-- `DisplayList::new`: group the items into the pool by stacking-context id
and flatten the tree. -/
def DisplayList.new (root_stacking_context : StackingContext)
    (all_items : List DisplayItem) : DisplayList :=
  ⟨(generate_display_list (mappedItems all_items) root_stacking_context).1⟩

/-! Tree membership of an id and the number of Real contexts, used to state
the assembly invariants. -/

mutual

/-- True when some context in the tree carries the id. -/
def occursIn (id : Nat) : StackingContext → Bool
  | .mk d cs => (d.id == id) || occursInForest id cs

/-- True when some context in one of the trees carries the id. -/
def occursInForest (id : Nat) : List StackingContext → Bool
  | [] => false
  | c :: rest => occursIn id c || occursInForest id rest

end

mutual

/-- The number of Real stacking contexts in the tree. -/
def realCount : StackingContext → Nat
  | .mk d cs => (if d.context_type = StackingContextType.Real then 1 else 0) +
      realCountForest cs

/-- The number of Real stacking contexts in a list of trees. -/
def realCountForest : List StackingContext → Nat
  | [] => 0
  | c :: rest => realCount c + realCountForest rest

end

/-! ### The traversal cursor (`DisplayListTraversal`) -/

/-- `DisplayListTraversal`: a cursor over a display list. The Rust struct
borrows the list; the embedding stores it by value. -/
structure DisplayListTraversal where
  display_list : DisplayList
  next_item_index : Nat
  first_item_index : Nat
  last_item_index : Nat

/-- `DisplayListTraversal::new`: the full traversal. -/
def DisplayListTraversal.new (dl : DisplayList) : DisplayListTraversal :=
  ⟨dl, 0, 0, dl.list.length⟩

/-- `Iterator::rposition` on a list: the index of the last element satisfying
the predicate. -/
def rposition {α : Type} (p : α → Bool) : List α → Option Nat
  | [] => none
  | a :: t =>
    match rposition p t with
    | some j => some (j + 1)
    | none => if p a then some 0 else none

/-- True on a `PushStackingContext` whose context carries the given id. -/
def DisplayItem.isPushWithId (id : Nat) : DisplayItem → Bool
  | .PushStackingContext _ ctx => ctx.id == id
  | _ => false

/-- True on a `PopStackingContext` carrying the given id. -/
def DisplayItem.isPopWithId (id : Nat) : DisplayItem → Bool
  | .PopStackingContext _ i => i == id
  | _ => false

/-- `DisplayListTraversal::new_partial`: reverse-scan `list[0..start]` for
the nearest Push with the requested id (default `start` when absent), then
`(first = start, last = end + 1, next = that index)`. -/
def DisplayListTraversal.new_partial (dl : DisplayList) (stacking_context_id : Nat)
    (start stop : Nat) : DisplayListTraversal :=
  let stacking_context_start :=
    (rposition (DisplayItem.isPushWithId stacking_context_id)
      (dl.list.take start)).getD start
  ⟨dl, stacking_context_start, start, stop + 1⟩

/-- `DisplayListTraversal::previous_item_id`, a `usize` subtraction
`next_item_index - 1`; `none` models the underflow panic taken when no item
has been consumed yet. -/
def DisplayListTraversal.previous_item_id (t : DisplayListTraversal) : Option Nat :=
  if t.next_item_index = 0 then none else some (t.next_item_index - 1)

/-- `DisplayListTraversal::skip_to_end_of_stacking_context`: the source
assigns `list[next..].iter().position(is matching Pop).unwrap_or(len)`, that
is, the position RELATIVE to the slice, to the absolute cursor field. -/
def DisplayListTraversal.skip_to_end_of_stacking_context
    (t : DisplayListTraversal) (id : Nat) : DisplayListTraversal :=
  { t with
    next_item_index :=
      ((t.display_list.list.drop t.next_item_index).findIdx?
        (DisplayItem.isPopWithId id)).getD t.display_list.list.length }

/-- A junk item used only as the `getD` default of list indexing; every
indexing in the modelled traversals is in bounds. -/
def defaultDisplayItem : DisplayItem :=
  .SolidColor BaseDisplayItem.empty ⟨0, 0, 0, 0⟩

/-- `Iterator::next for DisplayListTraversal`: while `next < last`, load the
item and advance; return it when the cursor has reached `first`, or when it
is a Push/Pop marker; otherwise keep skipping. Returns the item together
with the advanced cursor (the Rust iterator mutates in place). -/
def DisplayListTraversal.next (t : DisplayListTraversal) :
    Option (DisplayItem × DisplayListTraversal) :=
  if h : t.next_item_index < t.last_item_index then
    let reached_first_item := t.first_item_index ≤ t.next_item_index
    let item := t.display_list.list.getD t.next_item_index defaultDisplayItem
    let t' := { t with next_item_index := t.next_item_index + 1 }
    if reached_first_item then some (item, t')
    else if item.isMarker then some (item, t')
    else t'.next
  else none
termination_by t.last_item_index - t.next_item_index
decreasing_by simp; omega

/-- Helper fact about one `next` call: the cursor strictly advances, stays
within `last`, and every other field is unchanged. -/
theorem DisplayListTraversal.next_cursor :
    ∀ (n : Nat) (t : DisplayListTraversal),
      t.last_item_index - t.next_item_index ≤ n →
      ∀ it t', t.next = some (it, t') →
        t.next_item_index < t'.next_item_index ∧
        t'.last_item_index = t.last_item_index ∧
        t'.next_item_index ≤ t.last_item_index ∧
        t'.first_item_index = t.first_item_index ∧
        t'.display_list = t.display_list := by
  intro n
  induction n with
  | zero =>
    intro t hle it t' h
    rw [DisplayListTraversal.next, dif_neg (by omega)] at h
    exact absurd h (by simp)
  | succ n ih =>
    intro t hle it t' h
    rw [DisplayListTraversal.next] at h
    by_cases hlt : t.next_item_index < t.last_item_index
    · rw [dif_pos hlt] at h
      simp only [] at h
      by_cases hr : t.first_item_index ≤ t.next_item_index
      · rw [if_pos hr] at h
        injection h with h
        injection h with h1 h2
        subst h2
        refine ⟨Nat.lt_succ_self _, rfl, hlt, rfl, rfl⟩
      · rw [if_neg hr] at h
        by_cases hm : (t.display_list.list.getD t.next_item_index
            defaultDisplayItem).isMarker = true
        · rw [if_pos hm] at h
          injection h with h
          injection h with h1 h2
          subst h2
          refine ⟨Nat.lt_succ_self _, rfl, hlt, rfl, rfl⟩
        · rw [if_neg hm] at h
          have := ih { t with next_item_index := t.next_item_index + 1 }
            (by simp; omega) it t' h
          simp only [] at this
          refine ⟨by omega, this.2.1, by omega, this.2.2.2.1, this.2.2.2.2⟩
    · rw [dif_neg hlt] at h
      exact absurd h (by simp)

/-- The whole item sequence a traversal emits: iterate `next` to
exhaustion. -/
def DisplayListTraversal.emitAll (t : DisplayListTraversal) : List DisplayItem :=
  match h : t.next with
  | none => []
  | some (it, t') => it :: t'.emitAll
termination_by t.last_item_index - t.next_item_index
decreasing_by
  have h1 := DisplayListTraversal.next_cursor
    (t.last_item_index - t.next_item_index) t (Nat.le_refl _) it t' h
  omega

/-! ### The hit-test driver -/

/-- The scroll-offset map supplied by the compositor (`ScrollOffsetMap`);
absent ids default to zero (the source only reads present entries). -/
def ScrollOffsetMap := Nat → Option (ℚ × ℚ)

/-- Whether a stacking context is a fixed-position layer
(`layer_info.map_or(false, |info| info.scroll_policy == FixedPosition)`). -/
def StackingContext.isFixed (ctx : StackingContext) : Bool :=
  match ctx.layer_info with
  | some info => info.scroll_policy == ScrollPolicy.FixedPosition
  | none => false

/-- The point computation of `DisplayList::hit_test_stacking_context`: use
the client point verbatim for fixed contexts; otherwise subtract the bounds
origin and apply `transform.inverse().unwrap()` — `none` models the panic of
that `unwrap` when the transform is singular — then subtract the scroll
offset for non-root contexts. -/
def hitTestStackingContextPoint (ctx : StackingContext)
    (translated_point client_point : AuPoint) (scroll_offsets : ScrollOffsetMap) :
    Option AuPoint :=
  if ctx.isFixed then some client_point
  else
    let point : AuPoint := ⟨translated_point.x - ctx.bounds.origin.x,
                            translated_point.y - ctx.bounds.origin.y⟩
    match ctx.transform.inverse with
    | none => none
    | some inv_transform =>
      let frac := inv_transform.transform_point
        ⟨auToF32Px point.x, auToF32Px point.y⟩
      let p0 : AuPoint := ⟨auFromF32Px frac.x, auFromF32Px frac.y⟩
      if ctx.id ≠ rootStackingContextId then
        match scroll_offsets ctx.id with
        | some off => some ⟨p0.x - auFromF32Px off.1, p0.y - auFromF32Px off.2⟩
        | none => some p0
      else some p0

/-- The mutually recursive pair `hit_test_contents` /
`hit_test_stacking_context` over a FULL traversal (which yields the items in
order), written as the equivalent stack machine: the stack holds the
translated point of every enclosing recursion level (top = current level).
A Push computes the point for the new level (propagating the panic of a
singular transform as `none`) and pushes it; a Pop returns one level, and at
the outermost level it ends the walk, exactly as the `return` of the
outermost `hit_test_contents` does; any other item is hit-tested against the
current point in paint order. -/
def hitTestRun (scroll_offsets : ScrollOffsetMap) (client_point : AuPoint) :
    List DisplayItem → List AuPoint → List DisplayItemMetadata →
    Option (List DisplayItemMetadata)
  | [], _, acc => some acc
  | it :: rest, stack, acc =>
    match it with
    | .PushStackingContext _ ctx =>
      match hitTestStackingContextPoint ctx (stack.headD ⟨0, 0⟩) client_point
          scroll_offsets with
      | none => none
      | some p => hitTestRun scroll_offsets client_point rest (p :: stack) acc
    | .PopStackingContext _ _ =>
      match stack with
      | _ :: p :: s => hitTestRun scroll_offsets client_point rest (p :: s) acc
      | _ => some acc
    | _ =>
      match it.hit_test (stack.headD ⟨0, 0⟩) with
      | some meta =>
        hitTestRun scroll_offsets client_point rest stack (acc ++ [meta])
      | none => hitTestRun scroll_offsets client_point rest stack acc

/-- `DisplayList::hit_test`: walk the whole list with a full traversal;
`none` models a panic escaping to the caller. -/
def DisplayList.hit_test (dl : DisplayList)
    (translated_point client_point : AuPoint)
    (scroll_offsets : ScrollOffsetMap) : Option (List DisplayItemMetadata) :=
  hitTestRun scroll_offsets client_point dl.list [translated_point] []

/-! ### Definitions used to state the assembly invariants -/

/-- True on the non-marker items belonging to the bucket of the given id. -/
def DisplayItem.matchesBucket (id : Nat) (it : DisplayItem) : Bool :=
  !it.isMarker && (it.stacking_context_id == id)

/-- The order in which the items of one bucket are emitted by the builder:
sort by section (stable), then the Appendix E loops peel the
BackgroundAndBorders, BlockBackgroundsAndBorders and Content runs off the
front of the sorted list, and the final `list.extend` emits the rest (all of
it Outlines) from the reversed vector, that is, in reversed order. -/
def sectionSeq (b : List DisplayItem) : List DisplayItem :=
  let sorted := List.insertionSort itemSecLe b
  let rest1 := sorted.dropWhile secIsBg
  let rest2 := rest1.dropWhile secIsBlock
  let rest3 := rest2.dropWhile secIsContent
  sorted.takeWhile secIsBg ++ rest1.takeWhile secIsBlock ++
    rest2.takeWhile secIsContent ++ rest3.reverse

/-- A well-formed pool: every bucket holds only non-marker items carrying
the id of their bucket (true of the pool `DisplayList::new` builds from a
marker-free input). -/
def GoodPool (pool : Pool) : Prop :=
  ∀ id it, it ∈ pool id → it.isMarker = false ∧ it.stacking_context_id = id

/-- Properly bracketed display lists: empty, a non-marker item before a
balanced list, or a Push / matching Pop pair (the Pop carrying the id of the
pushed context) around a balanced inner list, followed by a balanced rest.
This is the standard inductive reading of "every Push has exactly one
matching Pop after it, with no interleaved mismatched brackets". -/
inductive Balanced : List DisplayItem → Prop
  | nil : Balanced []
  | plain {it : DisplayItem} {l : List DisplayItem} :
      it.isMarker = false → Balanced l → Balanced (it :: l)
  | bracket {b b' : BaseDisplayItem} {ctx : StackingContext}
      {inner rest : List DisplayItem} :
      Balanced inner → Balanced rest →
      Balanced (DisplayItem.PushStackingContext b ctx ::
        (inner ++ DisplayItem.PopStackingContext b' ctx.id :: rest))

/-! ### Concrete example values used by witnesses and counterexamples -/

/-- The all-zero 4x4 matrix: the simplest singular transform. -/
def Matrix4.zeroM : Matrix4 :=
  ⟨0, 0, 0, 0, 0, 0, 0, 0, 0, 0, 0, 0, 0, 0, 0, 0⟩

/-- Example rect: empty at the origin. -/
def exRect0 : AuRect := ⟨⟨0, 0⟩, ⟨0, 0⟩⟩

/-- Example rect: one CSS pixel (60 app units) square at the origin. -/
def exRect1 : AuRect := ⟨⟨0, 0⟩, ⟨60, 60⟩⟩

/-- Example metadata with a distinguishing node id and an arrow cursor. -/
def exMeta (n : Nat) : DisplayItemMetadata := ⟨n, some 0⟩

/-- Example solid-color item with a given node id, section and
stacking-context id. -/
def exSolid (n : Nat) (sec : DisplayListSection) (id : Nat) : DisplayItem :=
  .SolidColor ⟨exRect1, exMeta n, ClippingRegion.max, sec, id⟩ ⟨0, 0, 0, 1⟩

/-- Example stacking-context data: identity transforms, no filters, no
layer, the given id, type and z-index. -/
def exSCData (id : Nat) (t : StackingContextType) (z : Int) : SCData :=
  ⟨id, t, exRect0, exRect1, z, [], 0, Matrix4.identity, Matrix4.identity,
   false, none, none⟩

/-- The scenario of spec test 2: a Real root (id 0) with one Real child
(id 1) of z-index -1. -/
def exRootC2 : StackingContext :=
  .mk (exSCData 0 .Real 0) [.mk (exSCData 1 .Real (-1)) []]

/-- Content item A in the root bucket. -/
def exItemA : DisplayItem := exSolid 1 .Content 0

/-- Content item B in the bucket of child X. -/
def exItemB : DisplayItem := exSolid 2 .Content 1

/-- A root with no children, used for the Outlines-order counterexample. -/
def exRootOnly : StackingContext := .mk (exSCData 0 .Real 0) []

/-- Two distinct Outlines items in the root bucket, in input order O1, O2. -/
def exO1 : DisplayItem := exSolid 1 .Outlines 0

/-- The second Outlines item. -/
def exO2 : DisplayItem := exSolid 2 .Outlines 0

/-- A Real context with id 5, used by the traversal examples. -/
def exCtx5 : StackingContext := .mk (exSCData 5 .Real 0) []

/-- A four-item display list `[Push(5), item, item, Pop(5)]` used by the
traversal examples. -/
def exListC4 : DisplayList :=
  ⟨[.PushStackingContext BaseDisplayItem.empty exCtx5,
    exSolid 1 .Content 5, exSolid 2 .Content 5,
    .PopStackingContext BaseDisplayItem.empty 5]⟩

/-- A Real context with id 7, pushed at index 0 of `exListC5`. -/
def exCtx7 : StackingContext := .mk (exSCData 7 .Real 0) []

/-- The failing input of the skip-to-end bug: after consuming the Push at
index 0 the cursor sits at 1; the matching Pop is at index 2. -/
def exListC5 : DisplayList :=
  ⟨[.PushStackingContext BaseDisplayItem.empty exCtx7,
    exSolid 1 .Content 7,
    .PopStackingContext BaseDisplayItem.empty 7,
    exSolid 2 .Content 0]⟩

/-- A non-root Real context whose transform is the (singular) zero matrix. -/
def exSingularCtx : StackingContext :=
  .mk ⟨1, .Real, exRect0, exRect1, 0, [], 0, Matrix4.zeroM, Matrix4.identity,
       false, none, none⟩ []

/-- The failing input of the hit-test panic: a list whose subtree carries a
singular transform. -/
def exListC6 : DisplayList :=
  ⟨[.PushStackingContext BaseDisplayItem.empty exSingularCtx,
    exSolid 1 .Content 1,
    .PopStackingContext BaseDisplayItem.empty 1]⟩

/-- The empty scroll-offset map. -/
def exNoScroll : ScrollOffsetMap := fun _ => none

/-- C7 parent: Real, overflow one pixel at the origin, no children yet. -/
def exParentC7 : StackingContext := .mk (exSCData 0 .Real 0) []

/-- C7 child: Real, bounds origin at (100px, 100px), own overflow one pixel
at the origin — its overflow in parent space is (6000, 6000, 60, 60) app
units, far outside the parent overflow. -/
def exChildC7 : StackingContext :=
  .mk ⟨1, .Real, ⟨⟨6000, 6000⟩, ⟨0, 0⟩⟩, exRect1, 0, [], 0, Matrix4.identity,
       Matrix4.identity, false, none, none⟩ []

/-- The bundle of facts the induction over the builder establishes for one
stacking context, for a well-formed pool: the non-marker items of every
bucket id occur in the output exactly as `sectionSeq` of that bucket when
the id occurs in the tree (and not at all otherwise); the threaded pool has
exactly the buckets of the tree deleted; the output is properly bracketed;
every pushed context is Real; and Push and Pop marker counts both equal the
number of Real contexts. -/
def TreeConcl (pool : Pool) (sc : StackingContext) : Prop :=
  (∀ id, (generate_display_list pool sc).1.filter (DisplayItem.matchesBucket id) =
      if occursIn id sc then sectionSeq (pool id) else []) ∧
  (∀ id, (generate_display_list pool sc).2 id =
      if occursIn id sc then [] else pool id) ∧
  Balanced (generate_display_list pool sc).1 ∧
  (∀ b ctx, DisplayItem.PushStackingContext b ctx ∈
      (generate_display_list pool sc).1 →
      ctx.context_type = StackingContextType.Real) ∧
  (generate_display_list pool sc).1.countP DisplayItem.isPush = realCount sc ∧
  (generate_display_list pool sc).1.countP DisplayItem.isPop = realCount sc

/-- The same bundle for the sequential recursion into a list of trees. -/
def ForestConcl (pool : Pool) (scs : List StackingContext) : Prop :=
  (∀ id, (generate_display_list_forest pool scs).1.filter
      (DisplayItem.matchesBucket id) =
      if occursInForest id scs then sectionSeq (pool id) else []) ∧
  (∀ id, (generate_display_list_forest pool scs).2 id =
      if occursInForest id scs then [] else pool id) ∧
  Balanced (generate_display_list_forest pool scs).1 ∧
  (∀ b ctx, DisplayItem.PushStackingContext b ctx ∈
      (generate_display_list_forest pool scs).1 →
      ctx.context_type = StackingContextType.Real) ∧
  (generate_display_list_forest pool scs).1.countP DisplayItem.isPush =
    realCountForest scs ∧
  (generate_display_list_forest pool scs).1.countP DisplayItem.isPop =
    realCountForest scs

/-! ## Theorems

Support lemmas first, then one theorem (plus witness or counterexample) per
claim. -/

theorem popLastWhile_reverse (p : DisplayItem → Bool) (l : List DisplayItem) :
    popLastWhile p l.reverse = (l.takeWhile p, (l.dropWhile p).reverse) := by
  simp [popLastWhile]

/-- The builder on one context, restated with the pop-from-the-tail loops
rewritten as takeWhile / dropWhile on the section-sorted bucket (the second
component of `popLastWhile` stays reversed, so step 10 appends the reversed
Outlines run). -/
theorem generate_display_list_eq (pool : Pool) (d : SCData)
    (cs : List StackingContext) :
    generate_display_list pool (.mk d cs) =
    (let sortedC := List.insertionSort scLe cs
     let pool0 : Pool := fun j => if j = d.id then [] else pool j
     let sorted := List.insertionSort itemSecLe (pool d.id)
     let rest1 := sorted.dropWhile secIsBg
     let rest2 := rest1.dropWhile secIsBlock
     let rest3 := rest2.dropWhile secIsContent
     let negChildren := sortedC.takeWhile zIndexNeg
     let restChildren1 := sortedC.dropWhile zIndexNeg
     let floatChildren := restChildren1.takeWhile ctxIsPseudoFloat
     let restChildren2 := restChildren1.dropWhile ctxIsPseudoFloat
     let g3 := generate_display_list_forest pool0 negChildren
     let g5 := generate_display_list_forest g3.2 floatChildren
     let g89 := generate_display_list_forest g5.2 restChildren2
     let pushPart :=
       if d.context_type = StackingContextType.Real then
         [DisplayItem.PushStackingContext BaseDisplayItem.empty
           (StackingContext.mk d [])]
       else []
     let popPart :=
       if d.context_type = StackingContextType.Real then
         [DisplayItem.PopStackingContext BaseDisplayItem.empty d.id]
       else []
     (pushPart ++ sorted.takeWhile secIsBg ++ g3.1 ++ rest1.takeWhile secIsBlock
        ++ g5.1 ++ rest2.takeWhile secIsContent ++ g89.1 ++ rest3.reverse
        ++ popPart,
      g89.2)) := by
  rw [generate_display_list]
  simp only [Pool.removeBucket, popLastWhile, List.reverse_reverse]

theorem generate_display_list_forest_nil (pool : Pool) :
    generate_display_list_forest pool [] = ([], pool) := by
  rw [generate_display_list_forest]

theorem generate_display_list_forest_cons (pool : Pool) (c : StackingContext)
    (rest : List StackingContext) :
    generate_display_list_forest pool (c :: rest) =
      ((generate_display_list pool c).1 ++
        (generate_display_list_forest (generate_display_list pool c).2 rest).1,
       (generate_display_list_forest (generate_display_list pool c).2 rest).2) := by
  rw [generate_display_list_forest]

/-! Balanced-list lemmas. -/

theorem Balanced.append {l₁ l₂ : List DisplayItem}
    (h₁ : Balanced l₁) (h₂ : Balanced l₂) : Balanced (l₁ ++ l₂) := by
  induction h₁ with
  | nil => exact h₂
  | plain hm _ ih => exact Balanced.plain hm ih
  | bracket _ _ ih₁ ih₂ =>
    rw [List.cons_append, List.append_assoc, List.cons_append]
    exact Balanced.bracket (by assumption) ih₂

theorem Balanced.of_plain {l : List DisplayItem}
    (h : ∀ it ∈ l, it.isMarker = false) : Balanced l := by
  induction l with
  | nil => exact Balanced.nil
  | cons a t ih =>
    exact Balanced.plain (h a (List.mem_cons_self a t))
      (ih fun it hit => h it (List.mem_cons_of_mem a hit))

/-! Marker trivia. -/

theorem isPush_false_of_not_marker {it : DisplayItem} (h : it.isMarker = false) :
    it.isPush = false := by
  cases it <;> simp_all [DisplayItem.isMarker, DisplayItem.isPush]

theorem isPop_false_of_not_marker {it : DisplayItem} (h : it.isMarker = false) :
    it.isPop = false := by
  cases it <;> simp_all [DisplayItem.isMarker, DisplayItem.isPop]

theorem matchesBucket_false_of_marker {id : Nat} {it : DisplayItem}
    (h : it.isMarker = true) : it.matchesBucket id = false := by
  simp [DisplayItem.matchesBucket, h]

/-! GoodPool lemmas. -/

theorem GoodPool.update {pool : Pool} (h : GoodPool pool) (i : Nat) :
    GoodPool (fun j => if j = i then [] else pool j) := by
  intro id it hit
  by_cases hij : id = i
  · simp [hij] at hit
  · simp only [if_neg hij] at hit
    exact h id it hit

theorem GoodPool.of_pointwise {pool p' : Pool} (h : GoodPool pool)
    (hp : ∀ j, p' j = [] ∨ p' j = pool j) : GoodPool p' := by
  intro id it hit
  rcases hp id with he | he
  · rw [he] at hit; cases hit
  · rw [he] at hit; exact h id it hit

/-! occursInForest and realCountForest lemmas. -/

theorem occursInForest_append (id : Nat) (a b : List StackingContext) :
    occursInForest id (a ++ b) = (occursInForest id a || occursInForest id b) := by
  induction a with
  | nil => simp [occursInForest]
  | cons c t ih => simp [occursInForest, ih, Bool.or_assoc]

theorem occursInForest_eq_any (id : Nat) (l : List StackingContext) :
    occursInForest id l = l.any (occursIn id) := by
  induction l with
  | nil => simp [occursInForest]
  | cons c t ih => simp [occursInForest, ih]

theorem any_eq_of_perm {α : Type} {l₁ l₂ : List α} (h : l₁.Perm l₂)
    (f : α → Bool) : l₁.any f = l₂.any f := by
  rw [Bool.eq_iff_iff]
  simp only [List.any_eq_true]
  exact ⟨fun ⟨x, hx, hf⟩ => ⟨x, h.mem_iff.1 hx, hf⟩,
         fun ⟨x, hx, hf⟩ => ⟨x, h.mem_iff.2 hx, hf⟩⟩

theorem occursInForest_perm {l₁ l₂ : List StackingContext} (h : l₁.Perm l₂)
    (id : Nat) : occursInForest id l₁ = occursInForest id l₂ := by
  rw [occursInForest_eq_any, occursInForest_eq_any, any_eq_of_perm h]

theorem realCountForest_append (a b : List StackingContext) :
    realCountForest (a ++ b) = realCountForest a + realCountForest b := by
  induction a with
  | nil => simp [realCountForest]
  | cons c t ih => simp [realCountForest, ih]; omega

theorem realCountForest_eq_sum (l : List StackingContext) :
    realCountForest l = (l.map realCount).sum := by
  induction l with
  | nil => simp [realCountForest]
  | cons c t ih => simp [realCountForest, ih]

theorem realCountForest_perm {l₁ l₂ : List StackingContext} (h : l₁.Perm l₂) :
    realCountForest l₁ = realCountForest l₂ := by
  rw [realCountForest_eq_sum, realCountForest_eq_sum, (h.map realCount).sum_eq]

/-! Filter helpers. -/

theorem filter_matchesBucket_self {id : Nat} {l : List DisplayItem}
    (h : ∀ it ∈ l, it.isMarker = false ∧ it.stacking_context_id = id) :
    l.filter (DisplayItem.matchesBucket id) = l := by
  rw [List.filter_eq_self]
  intro it hit
  have := h it hit
  simp [DisplayItem.matchesBucket, this.1, this.2]

theorem filter_matchesBucket_nil_of_ne {id id' : Nat} {l : List DisplayItem}
    (hne : id' ≠ id)
    (h : ∀ it ∈ l, it.stacking_context_id = id') :
    l.filter (DisplayItem.matchesBucket id) = [] := by
  rw [List.filter_eq_nil_iff]
  intro it hit
  simp [DisplayItem.matchesBucket, h it hit, hne]

theorem filter_matchesBucket_markerPart {id : Nat} {c : Prop} [Decidable c]
    {it : DisplayItem} (h : it.isMarker = true) :
    (if c then [it] else []).filter (DisplayItem.matchesBucket id) = [] := by
  by_cases hc : c <;> simp [hc, matchesBucket_false_of_marker h]

theorem countP_eq_zero_of_not_marker {l : List DisplayItem}
    (h : ∀ it ∈ l, it.isMarker = false) (p : DisplayItem → Bool)
    (hp : ∀ it, it.isMarker = false → p it = false) :
    l.countP p = 0 := by
  rw [List.countP_eq_zero]
  intro it hit
  simp [hp it (h it hit)]

theorem sectionSeq_nil : sectionSeq [] = [] := rfl

theorem ite_eq_or {α : Type} {c : Prop} [Decidable c] {a b : α} :
    (if c then a else b) = a ∨ (if c then a else b) = b := by
  by_cases h : c <;> simp [h]

/-! The three steps of the builder induction. -/

theorem forest_concl_nil (pool : Pool) : ForestConcl pool [] := by
  refine ⟨?_, ?_, ?_, ?_, ?_, ?_⟩ <;>
    simp [generate_display_list_forest_nil, occursInForest, realCountForest,
      Balanced.nil]

theorem forest_concl_cons (c : StackingContext) (rest : List StackingContext)
    (pool : Pool) (hGP : GoodPool pool)
    (treeIH : ∀ pool', GoodPool pool' → TreeConcl pool' c)
    (forestIH : ∀ pool', GoodPool pool' → ForestConcl pool' rest) :
    ForestConcl pool (c :: rest) := by
  obtain ⟨T1, T2, T3, T4, T5, T6⟩ := treeIH pool hGP
  have hGP2 : GoodPool (generate_display_list pool c).2 :=
    GoodPool.of_pointwise hGP fun j => by rw [T2 j]; exact ite_eq_or
  obtain ⟨F1, F2, F3, F4, F5, F6⟩ := forestIH _ hGP2
  rw [ForestConcl]
  rw [generate_display_list_forest_cons]
  refine ⟨?_, ?_, ?_, ?_, ?_, ?_⟩
  · intro id
    rw [List.filter_append, T1 id, F1 id]
    by_cases h1 : occursIn id c = true
    · have h2 : (generate_display_list pool c).2 id = [] := by
        rw [T2 id, if_pos h1]
      rw [h2]
      simp [occursInForest, h1, sectionSeq_nil]
    · have h2 : (generate_display_list pool c).2 id = pool id := by
        rw [T2 id, if_neg h1]
      rw [h2]
      simp only [Bool.not_eq_true] at h1
      simp [occursInForest, h1]
  · intro id
    rw [F2 id, T2 id]
    by_cases h1 : occursIn id c = true <;>
      by_cases h2 : occursInForest id rest = true <;>
      simp [occursInForest, h1, h2]
  · exact T3.append F3
  · intro b ctx h
    rcases List.mem_append.1 h with h | h
    · exact T4 b ctx h
    · exact F4 b ctx h
  · rw [List.countP_append, T5, F5, realCountForest]
  · rw [List.countP_append, T6, F6, realCountForest]

theorem filter_push_marker (id : Nat) {c : Prop} [Decidable c]
    (b : BaseDisplayItem) (ctx : StackingContext) :
    (if c then [DisplayItem.PushStackingContext b ctx] else []).filter
      (DisplayItem.matchesBucket id) = [] := by
  by_cases hc : c <;> simp [hc, DisplayItem.matchesBucket, DisplayItem.isMarker]

theorem filter_pop_marker (id : Nat) {c : Prop} [Decidable c]
    (b : BaseDisplayItem) (i : Nat) :
    (if c then [DisplayItem.PopStackingContext b i] else []).filter
      (DisplayItem.matchesBucket id) = [] := by
  by_cases hc : c <;> simp [hc, DisplayItem.matchesBucket, DisplayItem.isMarker]

theorem tree_concl_step (d : SCData) (cs : List StackingContext) (pool : Pool)
    (hGP : GoodPool pool)
    (forestIH : ∀ (scs : List StackingContext) (pool' : Pool),
      sizeOf scs < sizeOf (StackingContext.mk d cs) → GoodPool pool' →
      ForestConcl pool' scs) :
    TreeConcl pool (.mk d cs) := by
  rw [TreeConcl, generate_display_list_eq]
  simp only []
  set sortedC := List.insertionSort scLe cs with hsortedC
  set pool0 : Pool := (fun j => if j = d.id then [] else pool j) with hpool0
  set sorted := List.insertionSort itemSecLe (pool d.id) with hsorted
  set bg := sorted.takeWhile secIsBg with hbg
  set rest1 := sorted.dropWhile secIsBg with hrest1
  set blk := rest1.takeWhile secIsBlock with hblk
  set rest2 := rest1.dropWhile secIsBlock with hrest2
  set cnt := rest2.takeWhile secIsContent with hcnt
  set rest3 := rest2.dropWhile secIsContent with hrest3
  set neg := sortedC.takeWhile zIndexNeg with hneg
  set rest1C := sortedC.dropWhile zIndexNeg with hrest1C
  set fl := rest1C.takeWhile ctxIsPseudoFloat with hfl
  set rest2C := rest1C.dropWhile ctxIsPseudoFloat with hrest2C
  set g3 := generate_display_list_forest pool0 neg with hg3
  set g5 := generate_display_list_forest g3.2 fl with hg5
  set g89 := generate_display_list_forest g5.2 rest2C with hg89
  -- sizes of the child groups
  have hszNEG : sizeOf neg < sizeOf (StackingContext.mk d cs) := by
    rw [hneg, hsortedC]
    exact sizeOf_group_lt _ _ (List.takeWhile_sublist _)
  have hszFL : sizeOf fl < sizeOf (StackingContext.mk d cs) := by
    rw [hfl, hrest1C, hsortedC]
    exact sizeOf_group_lt _ _
      ((List.takeWhile_sublist _).trans (List.dropWhile_sublist _))
  have hszR2 : sizeOf rest2C < sizeOf (StackingContext.mk d cs) := by
    rw [hrest2C, hrest1C, hsortedC]
    exact sizeOf_group_lt _ _
      ((List.dropWhile_sublist _).trans (List.dropWhile_sublist _))
  -- pools stay well formed along the threading
  have hGP0 : GoodPool pool0 := by rw [hpool0]; exact hGP.update d.id
  have FA := forestIH neg pool0 hszNEG hGP0
  unfold ForestConcl at FA
  rw [← hg3] at FA
  obtain ⟨A1, A2, A3, A4, A5, A6⟩ := FA
  have hGPg3 : GoodPool g3.2 :=
    GoodPool.of_pointwise hGP0 fun j => by rw [A2 j]; exact ite_eq_or
  have FB := forestIH fl g3.2 hszFL hGPg3
  unfold ForestConcl at FB
  rw [← hg5] at FB
  obtain ⟨B1, B2, B3, B4, B5, B6⟩ := FB
  have hGPg5 : GoodPool g5.2 :=
    GoodPool.of_pointwise hGPg3 fun j => by rw [B2 j]; exact ite_eq_or
  have FC := forestIH rest2C g5.2 hszR2 hGPg5
  unfold ForestConcl at FC
  rw [← hg89] at FC
  obtain ⟨C1, C2, C3, C4, C5, C6⟩ := FC
  -- membership of the emitted bucket pieces in the bucket
  have hsortmem : ∀ it ∈ sorted, it ∈ pool d.id := by
    rw [hsorted]
    exact fun it h => (List.perm_insertionSort itemSecLe (pool d.id)).subset h
  have hBG : ∀ it ∈ bg,
      it.isMarker = false ∧ it.stacking_context_id = d.id := by
    rw [hbg]
    exact fun it h => hGP d.id it
      (hsortmem it ((List.takeWhile_sublist _).subset h))
  have hBLK : ∀ it ∈ blk,
      it.isMarker = false ∧ it.stacking_context_id = d.id := by
    rw [hblk, hrest1]
    exact fun it h => hGP d.id it (hsortmem it
      (((List.takeWhile_sublist _).trans (List.dropWhile_sublist _)).subset h))
  have hCNT : ∀ it ∈ cnt,
      it.isMarker = false ∧ it.stacking_context_id = d.id := by
    rw [hcnt, hrest2, hrest1]
    exact fun it h => hGP d.id it (hsortmem it
      (((List.takeWhile_sublist _).trans ((List.dropWhile_sublist _).trans
        (List.dropWhile_sublist _))).subset h))
  have hOUT : ∀ it ∈ rest3.reverse,
      it.isMarker = false ∧ it.stacking_context_id = d.id := by
    rw [hrest3, hrest2, hrest1]
    exact fun it h => hGP d.id it (hsortmem it
      (((List.dropWhile_sublist _).trans ((List.dropWhile_sublist _).trans
        (List.dropWhile_sublist _))).subset (List.mem_reverse.1 h)))
  -- the three child groups partition the sorted children
  have hsplit : neg ++ (fl ++ rest2C) = sortedC := by
    rw [hfl, hrest2C, List.takeWhile_append_dropWhile, hneg, hrest1C,
      List.takeWhile_append_dropWhile]
  have hocc : ∀ id,
      (occursInForest id neg ||
        (occursInForest id fl || occursInForest id rest2C)) =
      occursInForest id cs := by
    intro id
    rw [← occursInForest_append, ← occursInForest_append, hsplit, hsortedC]
    exact occursInForest_perm (List.perm_insertionSort scLe cs) id
  have hrc : realCountForest neg +
      (realCountForest fl + realCountForest rest2C) = realCountForest cs := by
    rw [← realCountForest_append, ← realCountForest_append, hsplit, hsortedC]
    exact realCountForest_perm (List.perm_insertionSort scLe cs)
  -- the section layout of the own bucket
  have hss : sectionSeq (pool d.id) = ((bg ++ blk) ++ cnt) ++ rest3.reverse := by
    rw [sectionSeq]
  have e00 : pool0 d.id = [] := by rw [hpool0]; simp
  refine ⟨?_, ?_, ?_, ?_, ?_, ?_⟩
  -- 1: the filter characterization
  · intro id
    simp only [List.filter_append]
    rw [A1 id, B1 id, C1 id, filter_push_marker, filter_pop_marker]
    by_cases hid : id = d.id
    · rw [hid]
      rw [filter_matchesBucket_self hBG, filter_matchesBucket_self hBLK,
        filter_matchesBucket_self hCNT, filter_matchesBucket_self hOUT]
      have e3 : g3.2 d.id = [] := by
        rw [A2 d.id]
        split
        · rfl
        · exact e00
      have e5 : g5.2 d.id = [] := by
        rw [B2 d.id]
        split
        · rfl
        · exact e3
      rw [e3, e5, e00]
      have hoc : occursIn d.id (StackingContext.mk d cs) = true := by
        simp [occursIn]
      simp [hoc, hss, sectionSeq_nil, List.append_assoc]
    · have hne : d.id ≠ id := fun h => hid h.symm
      rw [filter_matchesBucket_nil_of_ne hne fun it h => (hBG it h).2,
        filter_matchesBucket_nil_of_ne hne fun it h => (hBLK it h).2,
        filter_matchesBucket_nil_of_ne hne fun it h => (hCNT it h).2,
        filter_matchesBucket_nil_of_ne hne fun it h => (hOUT it h).2]
      have e0 : pool0 id = pool id := by rw [hpool0]; simp [hid]
      have hbne : (d.id == id) = false := beq_eq_false_iff_ne.mpr hne
      simp only [occursIn]
      simp only [← hocc id]
      by_cases h1 : occursInForest id neg = true
      · have e3 : g3.2 id = [] := by rw [A2 id, if_pos h1]
        have e5 : g5.2 id = [] := by
          rw [B2 id]
          split
          · rfl
          · exact e3
        rw [e3, e5, e0]
        simp [h1, hbne, sectionSeq_nil]
      · have e3 : g3.2 id = pool id := by rw [A2 id, if_neg h1, e0]
        by_cases h2 : occursInForest id fl = true
        · have e5 : g5.2 id = [] := by rw [B2 id, if_pos h2]
          rw [e3, e5, e0]
          simp [h1, h2, hbne, sectionSeq_nil]
        · have e5 : g5.2 id = pool id := by rw [B2 id, if_neg h2, e3]
          by_cases h3 : occursInForest id rest2C = true
          · rw [e3, e5, e0]
            simp [h1, h2, h3, hbne]
          · rw [e3, e5, e0]
            simp [h1, h2, h3, hbne]
  -- 2: the final pool
  · intro id
    rw [C2 id, B2 id, A2 id]
    simp only [occursIn]
    simp only [← hocc id]
    by_cases hid : id = d.id
    · have e0 : pool0 id = [] := by rw [hid]; exact e00
      have hbe : (d.id == id) = true := beq_iff_eq.mpr hid.symm
      by_cases h1 : occursInForest id neg = true <;>
        by_cases h2 : occursInForest id fl = true <;>
        by_cases h3 : occursInForest id rest2C = true <;>
        simp [h1, h2, h3, e0, e00, hbe, hid]
    · have e0 : pool0 id = pool id := by rw [hpool0]; simp [hid]
      have hbne : (d.id == id) = false :=
        beq_eq_false_iff_ne.mpr fun h => hid h.symm
      by_cases h1 : occursInForest id neg = true <;>
        by_cases h2 : occursInForest id fl = true <;>
        by_cases h3 : occursInForest id rest2C = true <;>
        simp [h1, h2, h3, e0, hbne]
  -- 3: balanced brackets
  · have hmid : Balanced ((((((bg ++ g3.1) ++ blk) ++ g5.1) ++ cnt) ++ g89.1)
        ++ rest3.reverse) :=
      ((((((Balanced.of_plain fun it h => (hBG it h).1).append A3).append
        (Balanced.of_plain fun it h => (hBLK it h).1)).append B3).append
        (Balanced.of_plain fun it h => (hCNT it h).1)).append C3).append
        (Balanced.of_plain fun it h => (hOUT it h).1)
    by_cases hreal : d.context_type = StackingContextType.Real
    · rw [if_pos hreal, if_pos hreal]
      have hb := @Balanced.bracket BaseDisplayItem.empty BaseDisplayItem.empty
        (.mk d []) _ _ hmid Balanced.nil
      simp only [StackingContext.id, StackingContext.data] at hb
      simp only [List.append_assoc] at hb ⊢
      simpa using hb
    · rw [if_neg hreal, if_neg hreal]
      simp only [List.append_assoc] at hmid ⊢
      simpa using hmid
  -- 4: every pushed context is Real
  · intro b ctx h
    simp only [List.mem_append] at h
    rcases h with ((((((((h | h) | h) | h) | h) | h) | h) | h) | h)
    · by_cases hreal : d.context_type = StackingContextType.Real
      · rw [if_pos hreal] at h
        simp only [List.mem_singleton] at h
        obtain ⟨h1, h2⟩ := DisplayItem.PushStackingContext.inj h
        subst h2
        simpa [StackingContext.context_type, StackingContext.data] using hreal
      · rw [if_neg hreal] at h
        cases h
    · have := (hBG _ h).1
      simp [DisplayItem.isMarker] at this
    · exact A4 b ctx h
    · have := (hBLK _ h).1
      simp [DisplayItem.isMarker] at this
    · exact B4 b ctx h
    · have := (hCNT _ h).1
      simp [DisplayItem.isMarker] at this
    · exact C4 b ctx h
    · have := (hOUT _ h).1
      simp [DisplayItem.isMarker] at this
    · by_cases hreal : d.context_type = StackingContextType.Real
      · rw [if_pos hreal] at h
        simp at h
      · rw [if_neg hreal] at h
        cases h
  -- 5: the number of Push markers
  · simp only [List.countP_append]
    rw [A5, B5, C5,
      countP_eq_zero_of_not_marker (fun it h => (hBG it h).1) _
        (fun it h => isPush_false_of_not_marker h),
      countP_eq_zero_of_not_marker (fun it h => (hBLK it h).1) _
        (fun it h => isPush_false_of_not_marker h),
      countP_eq_zero_of_not_marker (fun it h => (hCNT it h).1) _
        (fun it h => isPush_false_of_not_marker h),
      countP_eq_zero_of_not_marker (fun it h => (hOUT it h).1) _
        (fun it h => isPush_false_of_not_marker h)]
    simp only [realCount]
    by_cases hreal : d.context_type = StackingContextType.Real <;>
      simp [hreal, DisplayItem.isPush] <;>
      omega
  -- 6: the number of Pop markers
  · simp only [List.countP_append]
    rw [A6, B6, C6,
      countP_eq_zero_of_not_marker (fun it h => (hBG it h).1) _
        (fun it h => isPop_false_of_not_marker h),
      countP_eq_zero_of_not_marker (fun it h => (hBLK it h).1) _
        (fun it h => isPop_false_of_not_marker h),
      countP_eq_zero_of_not_marker (fun it h => (hCNT it h).1) _
        (fun it h => isPop_false_of_not_marker h),
      countP_eq_zero_of_not_marker (fun it h => (hOUT it h).1) _
        (fun it h => isPop_false_of_not_marker h)]
    simp only [realCount]
    by_cases hreal : d.context_type = StackingContextType.Real <;>
      simp [hreal, DisplayItem.isPop] <;>
      omega


/-- The builder induction: for every well-formed pool, `TreeConcl` holds of
every stacking context and `ForestConcl` of every forest. -/
theorem generate_spec_all : ∀ (n : Nat),
    (∀ (sc : StackingContext) (pool : Pool), sizeOf sc ≤ n → GoodPool pool →
      TreeConcl pool sc) ∧
    (∀ (scs : List StackingContext) (pool : Pool), sizeOf scs ≤ n →
      GoodPool pool → ForestConcl pool scs) := by
  intro n
  induction n using Nat.strong_induction_on with
  | _ n ih =>
    constructor
    · intro sc pool hsz hGP
      obtain ⟨d, cs⟩ := sc
      exact tree_concl_step d cs pool hGP fun scs pool' hlt hgp =>
        (ih (sizeOf scs) (Nat.lt_of_lt_of_le hlt hsz)).2 scs pool'
          (Nat.le_refl _) hgp
    · intro scs pool hsz hGP
      match scs with
      | [] => exact forest_concl_nil pool
      | c :: rest =>
        have hszc : sizeOf c < n := by
          have : sizeOf (c :: rest) = 1 + sizeOf c + sizeOf rest := by
            simp only [List.cons.sizeOf_spec]
          omega
        have hszr : sizeOf rest < n := by
          have : sizeOf (c :: rest) = 1 + sizeOf c + sizeOf rest := by
            simp only [List.cons.sizeOf_spec]
          omega
        exact forest_concl_cons c rest pool hGP
          (fun pool' hgp => (ih (sizeOf c) hszc).1 c pool' (Nat.le_refl _) hgp)
          (fun pool' hgp =>
            (ih (sizeOf rest) hszr).2 rest pool' (Nat.le_refl _) hgp)

/-- `TreeConcl` holds of the builder on any tree and well-formed pool. -/
theorem generate_tree_concl (sc : StackingContext) (pool : Pool)
    (hGP : GoodPool pool) : TreeConcl pool sc :=
  (generate_spec_all (sizeOf sc)).1 sc pool (Nat.le_refl _) hGP

/-- The pool built by `DisplayList::new` from marker-free items is
well formed. -/
theorem mappedItems_good {all_items : List DisplayItem}
    (h : ∀ it ∈ all_items, it.isMarker = false) : GoodPool (mappedItems all_items) := by
  intro id it hit
  rw [mappedItems, List.mem_filter] at hit
  refine ⟨h it hit.1, ?_⟩
  have := hit.2
  simpa using this

/-- C1: after assemble (`DisplayList::new`) on a marker-free item pool, the
resulting list is properly bracketed — every `PushStackingContext` has
exactly one matching `PopStackingContext` after it carrying the id of the
pushed context, with no interleaved mismatched brackets (the inductive
predicate `Balanced`) — every pushed context is of type Real, and the Push
and Pop counts both equal the number of Real contexts in the tree, so
non-Real contexts contribute no markers at all. -/
theorem C1_assembled_brackets_balanced (root : StackingContext)
    (all_items : List DisplayItem)
    (hmf : ∀ it ∈ all_items, it.isMarker = false) :
    Balanced (DisplayList.new root all_items).list ∧
    (∀ b ctx, DisplayItem.PushStackingContext b ctx ∈
        (DisplayList.new root all_items).list →
      ctx.context_type = StackingContextType.Real) ∧
    (DisplayList.new root all_items).list.countP DisplayItem.isPush =
      realCount root ∧
    (DisplayList.new root all_items).list.countP DisplayItem.isPop =
      realCount root := by
  have T := generate_tree_concl root (mappedItems all_items)
    (mappedItems_good hmf)
  unfold TreeConcl at T
  obtain ⟨_, _, T3, T4, T5, T6⟩ := T
  exact ⟨T3, T4, T5, T6⟩

/-- Witness for C1 at the concrete two-context tree of spec test 2. -/
theorem C1_assembled_brackets_balanced_witness :
    (∀ it ∈ [exItemA, exItemB], it.isMarker = false) ∧
    (Balanced (DisplayList.new exRootC2 [exItemA, exItemB]).list ∧
     (∀ b ctx, DisplayItem.PushStackingContext b ctx ∈
        (DisplayList.new exRootC2 [exItemA, exItemB]).list →
       ctx.context_type = StackingContextType.Real) ∧
     (DisplayList.new exRootC2 [exItemA, exItemB]).list.countP
        DisplayItem.isPush = realCount exRootC2 ∧
     (DisplayList.new exRootC2 [exItemA, exItemB]).list.countP
        DisplayItem.isPop = realCount exRootC2) :=
  ⟨by decide, C1_assembled_brackets_balanced exRootC2 [exItemA, exItemB]
    (by decide)⟩

/-- C2: on the concrete input of spec test 2 — Real root (id 0) holding
Content item A, with one Real child X (id 1, z-index -1) holding Content
item B — assembly yields exactly
Push(root), Push(X), B, Pop(X), A, Pop(root). -/
theorem C2_negative_z_index_child :
    (DisplayList.new exRootC2 [exItemA, exItemB]).list =
      [.PushStackingContext BaseDisplayItem.empty (.mk (exSCData 0 .Real 0) []),
       .PushStackingContext BaseDisplayItem.empty
         (.mk (exSCData 1 .Real (-1)) []),
       exItemB,
       .PopStackingContext BaseDisplayItem.empty 1,
       exItemA,
       .PopStackingContext BaseDisplayItem.empty 0] := by
  simp [DisplayList.new, generate_display_list, generate_display_list_forest,
    mappedItems, Pool.removeBucket, popLastWhile, exRootC2, exSCData, exItemA,
    exItemB, exSolid, exRect1, exMeta, List.insertionSort, List.orderedInsert,
    scLe, scCmp, itemSecLe, DisplayItem.stacking_context_id, DisplayItem.base,
    DisplayItem.sect, DisplayListSection.rank, StackingContext.z_index,
    StackingContext.data, StackingContext.children,
    StackingContext.context_type, StackingContext.id, secIsBg, secIsBlock,
    secIsContent, zIndexNeg, ctxIsPseudoFloat, DisplayItem.isMarker]

/-! Section layout lemmas for the amended C3. -/

theorem DisplayListSection.rank_injective :
    ∀ (s t : DisplayListSection), s.rank = t.rank → s = t := by
  intro s t h
  cases s <;> cases t <;> first
    | rfl
    | simp [DisplayListSection.rank] at h

theorem pairwise_rank_of_const {s : DisplayListSection} {l : List DisplayItem}
    (h : ∀ x ∈ l, x.sect = s) :
    l.Pairwise (fun a b => a.sect.rank ≤ b.sect.rank) := by
  induction l with
  | nil => exact List.Pairwise.nil
  | cons a t ih =>
    refine List.Pairwise.cons (fun y hy => ?_)
      (ih fun x hx => h x (List.mem_cons_of_mem a hx))
    rw [h a (List.mem_cons_self a t), h y (List.mem_cons_of_mem a hy)]

/-- On a section-sorted list all of whose sections have rank at least that
of `s`, the takeWhile of "section equals s" is exactly the filter, the
dropWhile is the complementary filter, and everything dropped has a strictly
larger rank. -/
theorem sorted_section_span (s : DisplayListSection) (p : DisplayItem → Bool)
    (hp : ∀ it, p it = (it.sect == s)) :
    ∀ l : List DisplayItem, l.Pairwise itemSecLe →
      (∀ x ∈ l, s.rank ≤ x.sect.rank) →
      l.takeWhile p = l.filter p ∧
      l.dropWhile p = l.filter (fun it => !(p it)) ∧
      (∀ x ∈ l.dropWhile p, s.rank < x.sect.rank) := by
  intro l
  induction l with
  | nil => simp
  | cons a t ih =>
    intro hsall hmin
    obtain ⟨hhead, htail⟩ := List.pairwise_cons.1 hsall
    by_cases ha : p a = true
    · have ha' : (a.sect == s) = true := by rw [← hp a]; exact ha
      obtain ⟨ih1, ih2, ih3⟩ := ih htail
        (fun x hx => hmin x (List.mem_cons_of_mem a hx))
      refine ⟨?_, ?_, ?_⟩
      · rw [List.takeWhile_cons_of_pos ha, List.filter_cons_of_pos ha, ih1]
      · rw [List.dropWhile_cons_of_pos ha,
          List.filter_cons_of_neg (by simp [ha]), ih2]
      · intro x hx
        rw [List.dropWhile_cons_of_pos ha] at hx
        exact ih3 x hx
    · have hne : a.sect ≠ s := by
        intro he
        exact ha (by rw [hp a, he]; simp)
      have hlt : s.rank < a.sect.rank :=
        Nat.lt_of_le_of_ne (hmin a (List.mem_cons_self a t))
          fun he => hne (DisplayListSection.rank_injective _ _ he).symm
      have hall : ∀ x ∈ a :: t, s.rank < x.sect.rank := by
        intro x hx
        rcases List.mem_cons.1 hx with hx | hx
        · rw [hx]; exact hlt
        · exact Nat.lt_of_lt_of_le hlt (hhead x hx)
      have hnone : ∀ x ∈ a :: t, ¬ p x = true := by
        intro x hx hpx
        have hxs : x.sect = s := by
          have h0 := hp x ▸ hpx
          simpa [beq_iff_eq] using h0
        have h2 := hall x hx
        rw [hxs] at h2
        omega
      refine ⟨?_, ?_, ?_⟩
      · rw [List.takeWhile_cons_of_neg ha]
        rw [eq_comm, List.filter_eq_nil_iff]
        exact hnone
      · rw [List.dropWhile_cons_of_neg ha, eq_comm, List.filter_eq_self]
        intro x hx
        simp [hnone x hx]
      · intro x hx
        rw [List.dropWhile_cons_of_neg ha] at hx
        exact hall x hx

/-- Inserting one item into a list preserves, per section, the run of items
of that section: the inserted item lands in front of the items of its own
section because everything the insertion walks past compares strictly
smaller. -/
theorem filter_sec_orderedInsert (s : DisplayListSection) (x : DisplayItem)
    (l : List DisplayItem) :
    (List.orderedInsert itemSecLe x l).filter (fun it => it.sect == s) =
      if x.sect == s then x :: l.filter (fun it => it.sect == s)
      else l.filter (fun it => it.sect == s) := by
  induction l with
  | nil => by_cases hx : (x.sect == s) = true <;> simp [List.orderedInsert, hx]
  | cons a t ih =>
    rw [List.orderedInsert]
    by_cases hr : itemSecLe x a
    · rw [if_pos hr]
      simp only [List.filter_cons]
    · rw [if_neg hr]
      simp only [List.filter_cons]
      by_cases hx : (x.sect == s) = true
      · have hxs : x.sect = s := by simpa [beq_iff_eq] using hx
        have hane : (a.sect == s) = false := by
          rw [beq_eq_false_iff_ne]
          intro he
          refine hr ?_
          rw [itemSecLe, hxs, he]
        simp [hx, hane, ih]
      · by_cases ha : (a.sect == s) = true <;> simp [hx, ha, ih]

/-- Stability of the section sort: per section, the sorted list holds the
items of that section in input order. -/
theorem filter_sec_insertionSort (s : DisplayListSection)
    (l : List DisplayItem) :
    (List.insertionSort itemSecLe l).filter (fun it => it.sect == s) =
      l.filter (fun it => it.sect == s) := by
  induction l with
  | nil => rfl
  | cons a t ih =>
    rw [List.insertionSort, filter_sec_orderedInsert, ih, List.filter_cons]

/-- The layout of one bucket as emitted by the builder: sections are
non-decreasing, the three non-Outlines sections keep the input order of the
bucket, and the Outlines run is the input order reversed. -/
theorem sectionSeq_spec (b : List DisplayItem) :
    ((sectionSeq b).map DisplayItem.sect).Pairwise (fun x y => x.rank ≤ y.rank) ∧
    (∀ s, s ≠ DisplayListSection.Outlines →
      (sectionSeq b).filter (fun it => it.sect == s) =
        b.filter (fun it => it.sect == s)) ∧
    (sectionSeq b).filter (fun it => it.sect == DisplayListSection.Outlines) =
      (b.filter (fun it => it.sect == DisplayListSection.Outlines)).reverse := by
  rw [sectionSeq]
  set sorted := List.insertionSort itemSecLe b with hsorted
  set rest1 := sorted.dropWhile secIsBg with hrest1
  set rest2 := rest1.dropWhile secIsBlock with hrest2
  set rest3 := rest2.dropWhile secIsContent with hrest3
  have hsort : sorted.Pairwise itemSecLe := by
    rw [hsorted]
    exact List.sorted_insertionSort itemSecLe b
  have hmin0 : ∀ x ∈ sorted,
      DisplayListSection.BackgroundAndBorders.rank ≤ x.sect.rank := by
    intro x _
    simp [DisplayListSection.rank]
  obtain ⟨T0, D0, G0⟩ := sorted_section_span .BackgroundAndBorders secIsBg
    (fun it => rfl) sorted hsort hmin0
  have hsort1 : rest1.Pairwise itemSecLe := by
    rw [hrest1]
    exact List.Pairwise.sublist (List.dropWhile_sublist _) hsort
  have hmin1 : ∀ x ∈ rest1,
      DisplayListSection.BlockBackgroundsAndBorders.rank ≤ x.sect.rank := by
    intro x hx
    have h2 := G0 x (hrest1 ▸ hx)
    simp only [DisplayListSection.rank] at h2 ⊢
    omega
  obtain ⟨T1, D1, G1⟩ := sorted_section_span .BlockBackgroundsAndBorders
    secIsBlock (fun it => rfl) rest1 hsort1 hmin1
  have hsort2 : rest2.Pairwise itemSecLe := by
    rw [hrest2]
    exact List.Pairwise.sublist (List.dropWhile_sublist _) hsort1
  have hmin2 : ∀ x ∈ rest2, DisplayListSection.Content.rank ≤ x.sect.rank := by
    intro x hx
    have h2 := G1 x (hrest2 ▸ hx)
    simp only [DisplayListSection.rank] at h2 ⊢
    omega
  obtain ⟨T2, D2, G2⟩ := sorted_section_span .Content secIsContent
    (fun it => rfl) rest2 hsort2 hmin2
  -- the sections of the four pieces
  have hbg_sec : ∀ x ∈ sorted.takeWhile secIsBg,
      x.sect = DisplayListSection.BackgroundAndBorders := by
    intro x hx
    rw [T0] at hx
    have := (List.mem_filter.1 hx).2
    simpa [secIsBg, beq_iff_eq] using this
  have hblk_sec : ∀ x ∈ rest1.takeWhile secIsBlock,
      x.sect = DisplayListSection.BlockBackgroundsAndBorders := by
    intro x hx
    rw [T1] at hx
    have := (List.mem_filter.1 hx).2
    simpa [secIsBlock, beq_iff_eq] using this
  have hcnt_sec : ∀ x ∈ rest2.takeWhile secIsContent,
      x.sect = DisplayListSection.Content := by
    intro x hx
    rw [T2] at hx
    have := (List.mem_filter.1 hx).2
    simpa [secIsContent, beq_iff_eq] using this
  have hout_sec : ∀ x ∈ rest3, x.sect = DisplayListSection.Outlines := by
    intro x hx
    have h2 := G2 x (hrest3 ▸ hx)
    cases hsec : x.sect <;>
      first
        | rfl
        | (rw [hsec] at h2; simp [DisplayListSection.rank] at h2)
  have hout_sec' : ∀ x ∈ rest3.reverse, x.sect = DisplayListSection.Outlines :=
    fun x hx => hout_sec x (List.mem_reverse.1 hx)
  -- the four pieces as filters of the input bucket
  have hbgf : sorted.takeWhile secIsBg =
      b.filter (fun it => it.sect == DisplayListSection.BackgroundAndBorders) := by
    rw [T0, hsorted]
    exact filter_sec_insertionSort DisplayListSection.BackgroundAndBorders b
  have hblkf : rest1.takeWhile secIsBlock =
      b.filter (fun it =>
        it.sect == DisplayListSection.BlockBackgroundsAndBorders) := by
    rw [T1, hrest1, D0, List.filter_filter]
    have hc : ∀ x ∈ sorted,
        (secIsBlock x && !secIsBg x) =
        (x.sect == DisplayListSection.BlockBackgroundsAndBorders) := by
      intro x _
      cases hs : x.sect <;> simp [secIsBlock, secIsBg, hs] <;> decide
    rw [List.filter_congr hc, hsorted]
    exact filter_sec_insertionSort DisplayListSection.BlockBackgroundsAndBorders b
  have hcntf : rest2.takeWhile secIsContent =
      b.filter (fun it => it.sect == DisplayListSection.Content) := by
    rw [T2, hrest2, D1, hrest1, D0, List.filter_filter, List.filter_filter]
    have hc : ∀ x ∈ sorted,
        ((secIsContent x && !secIsBlock x) && !secIsBg x) =
        (x.sect == DisplayListSection.Content) := by
      intro x _
      cases hs : x.sect <;> simp [secIsContent, secIsBlock, secIsBg, hs] <;>
        decide
    rw [List.filter_congr hc, hsorted]
    exact filter_sec_insertionSort DisplayListSection.Content b
  have houtf : rest3 =
      b.filter (fun it => it.sect == DisplayListSection.Outlines) := by
    rw [hrest3, D2, hrest2, D1, hrest1, D0, List.filter_filter,
      List.filter_filter]
    have hc : ∀ x ∈ sorted,
        ((!secIsContent x && !secIsBlock x) && !secIsBg x) =
        (x.sect == DisplayListSection.Outlines) := by
      intro x _
      cases hs : x.sect <;> simp [secIsContent, secIsBlock, secIsBg, hs] <;>
        decide
    rw [List.filter_congr hc, hsorted]
    exact filter_sec_insertionSort DisplayListSection.Outlines b
  refine ⟨?_, ?_, ?_⟩
  -- sections are monotonically non-decreasing
  · rw [List.pairwise_map]
    rw [List.pairwise_append, List.pairwise_append, List.pairwise_append]
    refine ⟨⟨⟨pairwise_rank_of_const hbg_sec, pairwise_rank_of_const hblk_sec,
      ?_⟩, pairwise_rank_of_const hcnt_sec, ?_⟩,
      pairwise_rank_of_const hout_sec', ?_⟩
    · intro x hx y hy
      rw [hbg_sec x hx, hblk_sec y hy]
      simp [DisplayListSection.rank]
    · intro x hx y hy
      rcases List.mem_append.1 hx with hx | hx
      · rw [hbg_sec x hx, hcnt_sec y hy]
        simp [DisplayListSection.rank]
      · rw [hblk_sec x hx, hcnt_sec y hy]
        simp [DisplayListSection.rank]
    · intro x hx y hy
      rw [hout_sec' y hy]
      rcases List.mem_append.1 hx with hx | hx
      · rcases List.mem_append.1 hx with hx | hx
        · rw [hbg_sec x hx]
          simp [DisplayListSection.rank]
        · rw [hblk_sec x hx]
          simp [DisplayListSection.rank]
      · rw [hcnt_sec x hx]
        simp [DisplayListSection.rank]
  -- non-Outlines sections keep input order
  · intro s hs
    simp only [List.filter_append]
    cases s with
    | BackgroundAndBorders =>
      rw [List.filter_eq_self.mpr fun x hx => by
            simp [beq_iff_eq, hbg_sec x hx],
          List.filter_eq_nil_iff.mpr fun x hx => by
            simp [beq_iff_eq, hblk_sec x hx],
          List.filter_eq_nil_iff.mpr fun x hx => by
            simp [beq_iff_eq, hcnt_sec x hx],
          List.filter_eq_nil_iff.mpr fun x hx => by
            simp [beq_iff_eq, hout_sec' x hx],
          hbgf]
      simp
    | BlockBackgroundsAndBorders =>
      rw [List.filter_eq_nil_iff.mpr fun x hx => by
            simp [beq_iff_eq, hbg_sec x hx],
          List.filter_eq_self.mpr fun x hx => by
            simp [beq_iff_eq, hblk_sec x hx],
          List.filter_eq_nil_iff.mpr fun x hx => by
            simp [beq_iff_eq, hcnt_sec x hx],
          List.filter_eq_nil_iff.mpr fun x hx => by
            simp [beq_iff_eq, hout_sec' x hx],
          hblkf]
      simp
    | Content =>
      rw [List.filter_eq_nil_iff.mpr fun x hx => by
            simp [beq_iff_eq, hbg_sec x hx],
          List.filter_eq_nil_iff.mpr fun x hx => by
            simp [beq_iff_eq, hblk_sec x hx],
          List.filter_eq_self.mpr fun x hx => by
            simp [beq_iff_eq, hcnt_sec x hx],
          List.filter_eq_nil_iff.mpr fun x hx => by
            simp [beq_iff_eq, hout_sec' x hx],
          hcntf]
      simp
    | Outlines => exact absurd rfl hs
  -- the Outlines run is the input order reversed
  · simp only [List.filter_append]
    rw [List.filter_eq_nil_iff.mpr fun x hx => by
          simp [beq_iff_eq, hbg_sec x hx],
        List.filter_eq_nil_iff.mpr fun x hx => by
          simp [beq_iff_eq, hblk_sec x hx],
        List.filter_eq_nil_iff.mpr fun x hx => by
          simp [beq_iff_eq, hcnt_sec x hx],
        List.filter_eq_self.mpr fun x hx => by
          simp [beq_iff_eq, hout_sec' x hx],
        houtf]
    simp

/-- C3 counterexample: the claim says items sharing a section keep the input
pool order "including items of the Outlines section". On a root whose bucket
holds the two Outlines items O1, O2 (in that input order), the assembled
list carries them in the order O2, O1: the subsequence of the assembled list
made of the Outlines items of the root bucket differs from the input-order
filter of the pool. -/
theorem C3_outlines_order_counterexample :
    ¬ (((DisplayList.new exRootOnly [exO1, exO2]).list.filter
        (DisplayItem.matchesBucket 0)).filter
        (fun it => it.sect == DisplayListSection.Outlines) =
      ([exO1, exO2].filter fun it => it.stacking_context_id == 0).filter
        (fun it => it.sect == DisplayListSection.Outlines)) := by
  intro h
  simp [DisplayList.new, generate_display_list, generate_display_list_forest,
    mappedItems, Pool.removeBucket, popLastWhile, exRootOnly, exSCData, exO1,
    exO2, exSolid, exRect1, exMeta, List.insertionSort, List.orderedInsert,
    scLe, scCmp, itemSecLe, DisplayItem.stacking_context_id, DisplayItem.base,
    DisplayItem.sect, DisplayListSection.rank, StackingContext.z_index,
    StackingContext.data, StackingContext.children,
    StackingContext.context_type, StackingContext.id, secIsBg, secIsBlock,
    secIsContent, zIndexNeg, ctxIsPseudoFloat, DisplayItem.isMarker,
    DisplayItem.matchesBucket] at h

/-- C3 (amended): for every marker-free input pool and every id occurring in
the tree, the non-marker items of that bucket appear in the assembled list
with monotonically non-decreasing sections; for the BackgroundAndBorders,
BlockBackgroundsAndBorders and Content sections they keep the relative input
order of the pool, while the items of the Outlines section appear in the
REVERSED relative input order (the builder extends the output with the
still-reversed remainder of the sorted bucket). -/
theorem C3_bucket_order_amended (root : StackingContext)
    (all_items : List DisplayItem)
    (hmf : ∀ it ∈ all_items, it.isMarker = false)
    (id : Nat) (hocc : occursIn id root = true) :
    (((DisplayList.new root all_items).list.filter
        (DisplayItem.matchesBucket id)).map DisplayItem.sect).Pairwise
      (fun x y => x.rank ≤ y.rank) ∧
    (∀ s, s ≠ DisplayListSection.Outlines →
      ((DisplayList.new root all_items).list.filter
        (DisplayItem.matchesBucket id)).filter (fun it => it.sect == s) =
      (all_items.filter fun it => it.stacking_context_id == id).filter
        (fun it => it.sect == s)) ∧
    ((DisplayList.new root all_items).list.filter
        (DisplayItem.matchesBucket id)).filter
      (fun it => it.sect == DisplayListSection.Outlines) =
    ((all_items.filter fun it => it.stacking_context_id == id).filter
      (fun it => it.sect == DisplayListSection.Outlines)).reverse := by
  have T := generate_tree_concl root (mappedItems all_items)
    (mappedItems_good hmf)
  unfold TreeConcl at T
  have hF : (DisplayList.new root all_items).list.filter
      (DisplayItem.matchesBucket id) = sectionSeq (mappedItems all_items id) := by
    have h1 := T.1 id
    rw [if_pos hocc] at h1
    exact h1
  rw [hF]
  exact sectionSeq_spec (mappedItems all_items id)

/-- Witness for the amended C3 at the two-Outlines-item input. -/
theorem C3_bucket_order_amended_witness :
    (∀ it ∈ [exO1, exO2], it.isMarker = false) ∧
    occursIn 0 exRootOnly = true ∧
    ((((DisplayList.new exRootOnly [exO1, exO2]).list.filter
        (DisplayItem.matchesBucket 0)).map DisplayItem.sect).Pairwise
      (fun x y => x.rank ≤ y.rank) ∧
    (∀ s, s ≠ DisplayListSection.Outlines →
      ((DisplayList.new exRootOnly [exO1, exO2]).list.filter
        (DisplayItem.matchesBucket 0)).filter (fun it => it.sect == s) =
      ([exO1, exO2].filter fun it => it.stacking_context_id == 0).filter
        (fun it => it.sect == s)) ∧
    ((DisplayList.new exRootOnly [exO1, exO2]).list.filter
        (DisplayItem.matchesBucket 0)).filter
      (fun it => it.sect == DisplayListSection.Outlines) =
    (([exO1, exO2].filter fun it => it.stacking_context_id == 0).filter
      (fun it => it.sect == DisplayListSection.Outlines)).reverse) :=
  ⟨by decide,
   by simp [occursIn, exRootOnly, exSCData],
   C3_bucket_order_amended exRootOnly [exO1, exO2] (by decide) 0
     (by simp [occursIn, exRootOnly, exSCData])⟩

/-! Traversal lemmas for C4. -/

theorem rposition_eq_none {α : Type} (p : α → Bool) :
    ∀ l : List α, rposition p l = none → ∀ x ∈ l, p x = false := by
  intro l
  induction l with
  | nil => intro _ x hx; cases hx
  | cons a t ih =>
    intro h x hx
    rw [rposition] at h
    cases hrec : rposition p t with
    | some j' => rw [hrec] at h; cases h
    | none =>
      rw [hrec] at h
      by_cases hpa : p a = true
      · rw [if_pos hpa] at h; cases h
      · rw [if_neg hpa] at h
        rcases List.mem_cons.1 hx with hx | hx
        · rw [hx]; simpa using hpa
        · exact ih hrec x hx


theorem rposition_eq_some {α : Type} (p : α → Bool) :
    ∀ (l : List α) (j : Nat), rposition p l = some j →
      j < l.length ∧ (∀ x, l[j]? = some x → p x = true) ∧
      ∀ k, j < k → k < l.length → ∀ x, l[k]? = some x → p x = false := by
  intro l
  induction l with
  | nil => intro j h; cases h
  | cons a t ih =>
    intro j h
    rw [rposition] at h
    cases hrec : rposition p t with
    | some j' =>
      rw [hrec] at h
      injection h with h
      subst h
      obtain ⟨ihl, ihp, ihr⟩ := ih j' hrec
      refine ⟨by simp; omega, ?_, ?_⟩
      · intro x hx
        rw [List.getElem?_cons_succ] at hx
        exact ihp x hx
      · intro k hk hklen x hx
        match k, hk with
        | k' + 1, hk =>
          rw [List.getElem?_cons_succ] at hx
          exact ihr k' (by omega) (by simp at hklen; omega) x hx
    | none =>
      rw [hrec] at h
      by_cases hpa : p a = true
      · rw [if_pos hpa] at h
        injection h with h
        subst h
        refine ⟨by simp, ?_, ?_⟩
        · intro x hx
          rw [List.getElem?_cons_zero] at hx
          injection hx with hx
          rw [← hx]
          exact hpa
        · intro k hk hklen x hx
          match k, hk with
          | k' + 1, _ =>
            rw [List.getElem?_cons_succ] at hx
            obtain ⟨hlt2, heq⟩ := List.getElem?_eq_some.1 hx
            rw [← heq]
            exact rposition_eq_none p t hrec _ (List.getElem_mem hlt2)
      · rw [if_neg hpa] at h
        cases h

theorem next_eq_none {t : DisplayListTraversal}
    (h : ¬ t.next_item_index < t.last_item_index) : t.next = none := by
  rw [DisplayListTraversal.next, dif_neg h]

theorem next_eq_of_reached {t : DisplayListTraversal}
    (hlt : t.next_item_index < t.last_item_index)
    (hr : t.first_item_index ≤ t.next_item_index) :
    t.next = some (t.display_list.list.getD t.next_item_index defaultDisplayItem,
      { t with next_item_index := t.next_item_index + 1 }) := by
  rw [DisplayListTraversal.next, dif_pos hlt]
  simp only []
  rw [if_pos hr]

theorem next_eq_of_marker {t : DisplayListTraversal}
    (hlt : t.next_item_index < t.last_item_index)
    (hr : ¬ t.first_item_index ≤ t.next_item_index)
    (hm : (t.display_list.list.getD t.next_item_index
      defaultDisplayItem).isMarker = true) :
    t.next = some (t.display_list.list.getD t.next_item_index defaultDisplayItem,
      { t with next_item_index := t.next_item_index + 1 }) := by
  rw [DisplayListTraversal.next, dif_pos hlt]
  simp only []
  rw [if_neg hr, if_pos hm]

theorem next_eq_skip {t : DisplayListTraversal}
    (hlt : t.next_item_index < t.last_item_index)
    (hr : ¬ t.first_item_index ≤ t.next_item_index)
    (hm : (t.display_list.list.getD t.next_item_index
      defaultDisplayItem).isMarker = false) :
    t.next =
      ({ t with next_item_index := t.next_item_index + 1 } :
        DisplayListTraversal).next := by
  rw [DisplayListTraversal.next, dif_pos hlt]
  simp only []
  have hm2 := hm
  simp only [List.getD_eq_getElem?_getD] at hm2
  rw [if_neg hr, if_neg (by simp [hm2])]

theorem emitAll_none {t : DisplayListTraversal} (h : t.next = none) :
    t.emitAll = [] := by
  rw [DisplayListTraversal.emitAll]
  split
  · rfl
  · rename_i it t2 heq
    rw [h] at heq
    cases heq

theorem emitAll_some {t : DisplayListTraversal} {it : DisplayItem}
    {t2 : DisplayListTraversal} (h : t.next = some (it, t2)) :
    t.emitAll = it :: t2.emitAll := by
  rw [DisplayListTraversal.emitAll]
  split
  · rename_i heq
    rw [h] at heq
    cases heq
  · rename_i it2 t3 heq
    rw [h] at heq
    injection heq with heq
    injection heq with h1 h2
    rw [h1, h2]

/-- The whole sequence `next()` emits, characterized by indices: of the
window `[next, last)`, exactly the positions at or past `first` together
with the Push/Pop markers before `first`, in order. -/
theorem emitAll_formula : ∀ (n : Nat) (t : DisplayListTraversal),
    t.last_item_index - t.next_item_index ≤ n →
    t.emitAll = ((List.range' t.next_item_index
        (t.last_item_index - t.next_item_index)).filter
      (fun j => decide (t.first_item_index ≤ j) ||
        (t.display_list.list.getD j defaultDisplayItem).isMarker)).map
      (fun j => t.display_list.list.getD j defaultDisplayItem) := by
  intro n
  induction n with
  | zero =>
    intro t hle
    have h0 : t.last_item_index - t.next_item_index = 0 := by omega
    rw [h0, emitAll_none (next_eq_none (by omega))]
    simp
  | succ n ih =>
    intro t hle
    by_cases hlt : t.next_item_index < t.last_item_index
    · have hrange : t.last_item_index - t.next_item_index =
          (t.last_item_index - (t.next_item_index + 1)) + 1 := by omega
      rw [hrange, List.range'_succ]
      have hih := ih { t with next_item_index := t.next_item_index + 1 }
        (by simp only []; omega)
      by_cases hr : t.first_item_index ≤ t.next_item_index
      · rw [emitAll_some (next_eq_of_reached hlt hr), List.filter_cons,
          if_pos (by simp [hr]), List.map_cons, hih]
        try rfl
      · by_cases hm : (t.display_list.list.getD t.next_item_index
            defaultDisplayItem).isMarker = true
        · have hmG := hm
          simp only [List.getD_eq_getElem?_getD] at hmG
          rw [emitAll_some (next_eq_of_marker hlt hr hm), List.filter_cons,
            if_pos (by simp [hmG]), List.map_cons, hih]
          try rfl
        · have hnm : (t.display_list.list.getD t.next_item_index
              defaultDisplayItem).isMarker = false := by
            simpa using hm
          have hskip := next_eq_skip hlt hr hnm
          have hsame : t.emitAll =
              ({ t with next_item_index := t.next_item_index + 1 } :
                DisplayListTraversal).emitAll := by
            rcases htn : ({ t with next_item_index := t.next_item_index + 1 } :
                DisplayListTraversal).next with _ | ⟨it2, t2⟩
            · rw [emitAll_none (hskip.trans htn), emitAll_none htn]
            · rw [emitAll_some (hskip.trans htn), emitAll_some htn]
          have hnmG := hnm
          simp only [List.getD_eq_getElem?_getD] at hnmG
          rw [hsame, hih, List.filter_cons,
            if_neg (by simp [hr, hnmG])]
          try rfl
    · have h0 : t.last_item_index - t.next_item_index = 0 := by omega
      rw [h0, emitAll_none (next_eq_none (by omega))]
      simp


theorem getElem?_eq_some_getD (l : List DisplayItem) (k : Nat)
    (hk : k < l.length) : l[k]? = some (l.getD k defaultDisplayItem) := by
  rw [List.getD_eq_getElem?_getD, List.getElem?_eq_getElem hk]
  rfl

/-- C4: a partial traversal records `first = start`, `last = end + 1`, and
starts the cursor at the nearest `PushStackingContext` with the requested id
strictly before `start` found by reverse scan (at `start` when there is
none); and the sequence `next()` emits is exactly the items of the window
`[next, last)` whose index is at or past `first` or which are Push/Pop
markers — every other item before `first` is silently skipped, and from
`first` on every item up to but excluding `last` is returned. -/
theorem C4_partial_traversal_semantics (dl : DisplayList)
    (target start stop : Nat) (h1 : start ≤ stop) (h2 : stop < dl.list.length) :
    ((DisplayListTraversal.new_partial dl target start stop).first_item_index =
        start ∧
     (DisplayListTraversal.new_partial dl target start stop).last_item_index =
        stop + 1) ∧
    ((∃ j, j < start ∧
        (DisplayListTraversal.new_partial dl target start
          stop).next_item_index = j ∧
        (dl.list.getD j defaultDisplayItem).isPushWithId target = true ∧
        ∀ k, j < k → k < start →
          (dl.list.getD k defaultDisplayItem).isPushWithId target = false) ∨
     ((DisplayListTraversal.new_partial dl target start
        stop).next_item_index = start ∧
      ∀ k, k < start →
        (dl.list.getD k defaultDisplayItem).isPushWithId target = false)) ∧
    (DisplayListTraversal.new_partial dl target start stop).emitAll =
      ((List.range'
          (DisplayListTraversal.new_partial dl target start
            stop).next_item_index
          (stop + 1 -
            (DisplayListTraversal.new_partial dl target start
              stop).next_item_index)).filter
        (fun j => decide (start ≤ j) ||
          (dl.list.getD j defaultDisplayItem).isMarker)).map
        (fun j => dl.list.getD j defaultDisplayItem) := by
  have hstartlen : start < dl.list.length := by omega
  have hlen : (dl.list.take start).length = start := by
    rw [List.length_take]
    omega
  refine ⟨⟨rfl, rfl⟩, ?_, ?_⟩
  · cases hr : rposition (DisplayItem.isPushWithId target)
        (dl.list.take start) with
    | some j =>
      left
      obtain ⟨hjl, hp, hrest⟩ := rposition_eq_some _ _ j hr
      rw [hlen] at hjl
      refine ⟨j, hjl, ?_, ?_, ?_⟩
      · show (rposition (DisplayItem.isPushWithId target)
          (dl.list.take start)).getD start = j
        rw [hr]
        rfl
      · have he : (dl.list.take start)[j]? = dl.list[j]? :=
          List.getElem?_take_of_lt hjl
        exact hp _ (he.trans (getElem?_eq_some_getD dl.list j (by omega)))
      · intro k hk1 hk2
        have he : (dl.list.take start)[k]? = dl.list[k]? :=
          List.getElem?_take_of_lt hk2
        exact hrest k hk1 (by omega)
          _ (he.trans (getElem?_eq_some_getD dl.list k (by omega)))
    | none =>
      right
      have hall := rposition_eq_none _ _ hr
      constructor
      · show (rposition (DisplayItem.isPushWithId target)
          (dl.list.take start)).getD start = start
        rw [hr]
        rfl
      · intro k hk
        have he : (dl.list.take start)[k]? = dl.list[k]? :=
          List.getElem?_take_of_lt hk
        have hsome := he.trans (getElem?_eq_some_getD dl.list k (by omega))
        obtain ⟨h3, h4⟩ := List.getElem?_eq_some.1 hsome
        rw [← h4]
        exact hall _ (List.getElem_mem h3)
  · exact emitAll_formula
      ((DisplayListTraversal.new_partial dl target start stop).last_item_index -
        (DisplayListTraversal.new_partial dl target start
          stop).next_item_index)
      (DisplayListTraversal.new_partial dl target start stop) (Nat.le_refl _)

/-- Witness for C4 on the concrete list `[Push(5), item, item, Pop(5)]` with
`target = 5`, `start = 2`, `end = 3`. -/
theorem C4_partial_traversal_semantics_witness :
    (2 ≤ 3 ∧ 3 < exListC4.list.length) ∧
    (((DisplayListTraversal.new_partial exListC4 5 2 3).first_item_index = 2 ∧
      (DisplayListTraversal.new_partial exListC4 5 2 3).last_item_index =
        3 + 1) ∧
    ((∃ j, j < 2 ∧
        (DisplayListTraversal.new_partial exListC4 5 2 3).next_item_index = j ∧
        (exListC4.list.getD j defaultDisplayItem).isPushWithId 5 = true ∧
        ∀ k, j < k → k < 2 →
          (exListC4.list.getD k defaultDisplayItem).isPushWithId 5 = false) ∨
     ((DisplayListTraversal.new_partial exListC4 5 2 3).next_item_index = 2 ∧
      ∀ k, k < 2 →
        (exListC4.list.getD k defaultDisplayItem).isPushWithId 5 = false)) ∧
    (DisplayListTraversal.new_partial exListC4 5 2 3).emitAll =
      ((List.range'
          (DisplayListTraversal.new_partial exListC4 5 2 3).next_item_index
          (3 + 1 -
            (DisplayListTraversal.new_partial exListC4 5 2 3).next_item_index)).filter
        (fun j => decide (2 ≤ j) ||
          (exListC4.list.getD j defaultDisplayItem).isMarker)).map
        (fun j => exListC4.list.getD j defaultDisplayItem)) :=
  ⟨⟨by decide, by decide⟩,
   C4_partial_traversal_semantics exListC4 5 2 3 (by decide) (by decide)⟩

/-- C5 (code-bug evaluation): on `[Push(7), item, Pop(7), item]`, after one
`next()` the cursor stands at index 1 and the matching `PopStackingContext`
with id 7 sits at absolute index 2; but
`skip_to_end_of_stacking_context(7)` stores the position RELATIVE to the
slice `list[next..]` — here 1 — into the absolute cursor, so the cursor does
not advance to the Pop and the following `next()` returns the item inside
the context that should have been skipped. -/
theorem C5_skip_to_end_relative_index_bug :
    ((DisplayListTraversal.new exListC5).next).map Prod.fst =
      some (.PushStackingContext BaseDisplayItem.empty exCtx7) ∧
    ((DisplayListTraversal.new exListC5).next).map
      (fun r => r.2.next_item_index) = some 1 ∧
    exListC5.list.getD 2 defaultDisplayItem =
      .PopStackingContext BaseDisplayItem.empty 7 ∧
    ((⟨exListC5, 1, 0, 4⟩ :
        DisplayListTraversal).skip_to_end_of_stacking_context
      7).next_item_index = 1 ∧
    ((((⟨exListC5, 1, 0, 4⟩ :
        DisplayListTraversal).skip_to_end_of_stacking_context 7).next).map
      Prod.fst) = some (exSolid 1 .Content 7) := by
  refine ⟨?_, ?_, by rfl, by rfl, ?_⟩
  · rw [show (DisplayListTraversal.new exListC5).next =
        some (exListC5.list.getD 0 defaultDisplayItem,
          ⟨exListC5, 1, 0, exListC5.list.length⟩) from
      next_eq_of_reached (by simp [DisplayListTraversal.new, exListC5])
        (by simp [DisplayListTraversal.new])]
    rfl
  · rw [show (DisplayListTraversal.new exListC5).next =
        some (exListC5.list.getD 0 defaultDisplayItem,
          ⟨exListC5, 1, 0, exListC5.list.length⟩) from
      next_eq_of_reached (by simp [DisplayListTraversal.new, exListC5])
        (by simp [DisplayListTraversal.new])]
    rfl
  · rw [show ((⟨exListC5, 1, 0, 4⟩ :
          DisplayListTraversal).skip_to_end_of_stacking_context 7) =
        (⟨exListC5, 1, 0, 4⟩ : DisplayListTraversal) from by rfl]
    rw [show ((⟨exListC5, 1, 0, 4⟩ : DisplayListTraversal)).next =
        some (exListC5.list.getD 1 defaultDisplayItem,
          ⟨exListC5, 2, 0, 4⟩) from
      next_eq_of_reached (by simp [exListC5]) (by simp)]
    rfl

/-- C6 (code-bug evaluation): hit-testing a display list whose stacking
context carries a singular (zero) transform runs into
`transform.inverse().unwrap()` in `hit_test_stacking_context`; the embedded
model returns `none` — the panic — instead of the normal, possibly-empty
result the spec promises. -/
theorem C6_hit_test_singular_transform_panics :
    exListC6.hit_test ⟨0, 0⟩ ⟨0, 0⟩ exNoScroll = none := by
  have hdet : Matrix4.zeroM.det = 0 := by
    norm_num [Matrix4.det, Matrix4.zeroM, det3]
  have hinv : Matrix4.zeroM.inverse = none := by
    rw [Matrix4.inverse]
    simp [hdet]
  have hpt : hitTestStackingContextPoint exSingularCtx ⟨0, 0⟩ ⟨0, 0⟩
      exNoScroll = none := by
    rw [hitTestStackingContextPoint]
    simp [StackingContext.isFixed, StackingContext.layer_info,
      StackingContext.data, exSingularCtx, StackingContext.transform, hinv]
  rw [DisplayList.hit_test]
  simp [exListC6, hitTestRun, hpt]

/-- A point of the left operand stays in the union. -/
theorem AuRect.mem_union_left {r s : AuRect} {p : AuPoint} (h : r.mem p) :
    (r.union s).mem p := by
  rw [AuRect.union]
  split
  · rename_i h0
    exfalso
    obtain ⟨h1, h2, _, _⟩ := h
    rw [h0] at h2
    simp at h2
    omega
  · split
    · exact h
    · obtain ⟨h1, h2, h3, h4⟩ := h
      simp only [AuRect.mem]
      omega

/-- A point of the right operand stays in the union. -/
theorem AuRect.mem_union_right {r s : AuRect} {p : AuPoint} (h : s.mem p) :
    (r.union s).mem p := by
  rw [AuRect.union]
  split
  · exact h
  · split
    · rename_i h0
      exfalso
      obtain ⟨h1, h2, _, _⟩ := h
      rw [h0] at h2
      simp at h2
      omega
    · obtain ⟨h1, h2, h3, h4⟩ := h
      simp only [AuRect.mem]
      omega

/-- The overflow fold of `update_overflow_for_all_children` only grows the
accumulator: membership of a point is preserved. -/
theorem mem_foldl_overflow (d : SCData) (p : AuPoint) :
    ∀ (l : List StackingContext) (acc : AuRect), acc.mem p →
      (l.foldl (fun acc child =>
        if d.context_type = StackingContextType.Real ∧
           child.context_type = StackingContextType.Real then
          acc.union child.overflow_rect_in_parent_space
        else acc) acc).mem p := by
  intro l
  induction l with
  | nil => intro acc h; exact h
  | cons a t ih =>
    intro acc h
    rw [List.foldl_cons]
    apply ih
    split
    · exact AuRect.mem_union_left h
    · exact h

/-- The overflow fold absorbs the overflow rect of every Real element of the
list, provided the owner is Real. -/
theorem mem_foldl_overflow_of_mem (d : SCData) (p : AuPoint)
    (hd : d.context_type = StackingContextType.Real) :
    ∀ (l : List StackingContext) (acc : AuRect) (gc : StackingContext),
      gc ∈ l → gc.context_type = StackingContextType.Real →
      gc.overflow_rect_in_parent_space.mem p →
      (l.foldl (fun acc child =>
        if d.context_type = StackingContextType.Real ∧
           child.context_type = StackingContextType.Real then
          acc.union child.overflow_rect_in_parent_space
        else acc) acc).mem p := by
  intro l
  induction l with
  | nil => intro acc gc hm; exact absurd hm (List.not_mem_nil gc)
  | cons a t ih =>
    intro acc gc hm hgc hmem
    rw [List.foldl_cons]
    rcases List.mem_cons.mp hm with he | ht
    · apply mem_foldl_overflow
      rw [if_pos ⟨hd, he ▸ hgc⟩, ← he]
      exact AuRect.mem_union_right hmem
    · exact ih _ gc ht hgc hmem

/-- `update_overflow_for_all_children` of a childless context is the context
itself. -/
theorem update_overflow_childless (d : SCData) :
    (StackingContext.mk d []).update_overflow_for_all_children =
      StackingContext.mk d [] := rfl

/-- C7 (counterexample): the claimed invariant — after `add_child`, the
parent overflow covers `overflow_rect_in_parent_space` of every Real child —
fails on `exParentC7.add_child exChildC7`: the parent overflow stays the
one-pixel rect at the origin while the appended Real child's overflow rect in
parent space sits at (6000, 6000); `add_child` never touches the parent's
own overflow. -/
theorem C7_overflow_counterexample :
    ¬ ((exParentC7.add_child exChildC7).context_type =
          StackingContextType.Real →
       ∀ gc ∈ (exParentC7.add_child exChildC7).children,
         gc.context_type = StackingContextType.Real →
         gc.overflow_rect_in_parent_space.subsetOf
           (exParentC7.add_child exChildC7).overflow) := by
  intro h
  have hupd : exChildC7.update_overflow_for_all_children = exChildC7 := rfl
  have hm : exChildC7 ∈ (exParentC7.add_child exChildC7).children := by
    simp [exParentC7, StackingContext.add_child, StackingContext.children,
      hupd]
  have hrips : exChildC7.overflow_rect_in_parent_space =
      ⟨⟨6000, 6000⟩, ⟨60, 60⟩⟩ := by
    simp [StackingContext.overflow_rect_in_parent_space, exChildC7,
      StackingContext.bounds, StackingContext.overflow,
      StackingContext.transform, StackingContext.data, Matrix4.pre_translated,
      Matrix4.pre_mul, Matrix4.create_translation, Matrix4.mul,
      Matrix4.identity, Matrix4.to_2d, Matrix2.transform_rect,
      Matrix2.transform_point, auRectToF32Rect, f32RectToAuRect, auToF32Px,
      auFromF32Px, exRect1]
  have h3 := h rfl exChildC7 hm rfl ⟨6000, 6000⟩
    (by rw [hrips]; exact ⟨by simp, by simp, by simp, by simp⟩)
  have hover : (exParentC7.add_child exChildC7).overflow = exRect1 := rfl
  rw [hover] at h3
  obtain ⟨_, h2, _, _⟩ := h3
  simp [exRect1] at h2

/-- C7 (amended): `add_child` leaves the parent's own overflow untouched; it
appends `child.update_overflow_for_all_children`, and it is that appended
child — when Real — whose overflow absorbs `overflow_rect_in_parent_space`
of each of its own Real children (the parent's grandchildren). -/
theorem C7_add_child_overflow_amended (ctx child : StackingContext)
    (hc : child.context_type = StackingContextType.Real) :
    (ctx.add_child child).children =
      ctx.children ++ [child.update_overflow_for_all_children] ∧
    (ctx.add_child child).overflow = ctx.overflow ∧
    ∀ gc ∈ child.children, gc.context_type = StackingContextType.Real →
      gc.overflow_rect_in_parent_space.subsetOf
        child.update_overflow_for_all_children.overflow := by
  refine ⟨?_, ?_, ?_⟩
  · cases ctx; rfl
  · cases ctx; rfl
  · cases child with
    | mk d cs =>
      intro gc hm hgc p hp
      have hd : d.context_type = StackingContextType.Real := hc
      show ((StackingContext.mk d cs).update_overflow_for_all_children).overflow.mem p
      rw [StackingContext.update_overflow_for_all_children]
      exact mem_foldl_overflow_of_mem d p hd cs d.overflow gc hm hgc hp

/-- A rectangle containing two points contains the point mixing the x of the
first with the y of the second (the `contains` test is a product of an x-
and a y-interval test). -/
theorem AuRect.contains_mix (r : AuRect) (p q : AuPoint)
    (hp : r.contains p = true) (hq : r.contains q = true) :
    r.contains ⟨p.x, q.y⟩ = true := by
  simp only [AuRect.contains, Bool.and_eq_true, decide_eq_true_eq] at hp hq ⊢
  exact ⟨⟨⟨hp.1.1.1, hp.1.1.2⟩, hq.1.2⟩, hq.2⟩

/-- C8: `BaseDisplayItem::new` stores `ClippingRegion::max()` exactly when
`clip.does_not_clip_rect(bounds)` holds and the given clip otherwise; and
`does_not_clip_rect r` returns true only if all four corners of `r` lie
inside `main` and inside the rect of every complex entry (radii ignored). -/
theorem C8_clip_canonicalization (bounds : AuRect)
    (metadata : DisplayItemMetadata) (clip : ClippingRegion)
    (sec : DisplayListSection) (scid : Nat) :
    (BaseDisplayItem.new bounds metadata clip sec scid).clip =
      (if clip.does_not_clip_rect bounds then ClippingRegion.max
       else clip) ∧
    (clip.does_not_clip_rect bounds = true →
      ∀ c ∈ [bounds.origin,
             (⟨bounds.origin.x + bounds.size.width, bounds.origin.y⟩ :
               AuPoint),
             (⟨bounds.origin.x, bounds.origin.y + bounds.size.height⟩ :
               AuPoint),
             bounds.bottom_right],
        clip.main.contains c = true ∧
        ∀ cx ∈ clip.complex, cx.rect.contains c = true) := by
  constructor
  · rfl
  · intro h c hc
    rw [ClippingRegion.does_not_clip_rect] at h
    simp only [Bool.and_eq_true, List.all_eq_true] at h
    obtain ⟨⟨h1, h2⟩, hall⟩ := h
    simp only [List.mem_cons, List.not_mem_nil, or_false] at hc
    rcases hc with rfl | rfl | rfl | rfl
    · exact ⟨h1, fun cx hcx => (hall cx hcx).1⟩
    · constructor
      · have := AuRect.contains_mix clip.main bounds.bottom_right
          bounds.origin h2 h1
        simpa [AuRect.bottom_right] using this
      · intro cx hcx
        have := AuRect.contains_mix cx.rect bounds.bottom_right
          bounds.origin (hall cx hcx).2 (hall cx hcx).1
        simpa [AuRect.bottom_right] using this
    · constructor
      · have := AuRect.contains_mix clip.main bounds.origin
          bounds.bottom_right h1 h2
        simpa [AuRect.bottom_right] using this
      · intro cx hcx
        have := AuRect.contains_mix cx.rect bounds.origin
          bounds.bottom_right (hall cx hcx).1 (hall cx hcx).2
        simpa [AuRect.bottom_right] using this
    · exact ⟨h2, fun cx hcx => (hall cx hcx).2⟩

/-- C9: per-item hit-test rules. A point inside the interior rect of a
Border (bounds inset by the border widths) never hits it; a point that
passes the clip, lies in the bounds with pointing set, but is outside the
interior rect, hits the border band and yields the metadata; a BoxShadow
never yields a hit; and an item whose `metadata.pointing` is `none` never
yields a hit. -/
theorem C9_hit_test_rules (b : BaseDisplayItem) (w : SideOffsetsAu)
    (rad : BorderRadii) (point : AuPoint) :
    ((borderInteriorRect b.bounds w).contains point = true →
      (DisplayItem.Border b w rad).hit_test point = none) ∧
    (b.clip.might_intersect_point point = true →
      b.bounds.contains point = true →
      b.metadata.pointing.isNone = false →
      (borderInteriorRect b.bounds w).contains point = false →
      (DisplayItem.Border b w rad).hit_test point = some b.metadata) ∧
    (∀ bb off col br sr bradius m,
      (DisplayItem.BoxShadow b bb off col br sr bradius m).hit_test point =
        none) ∧
    (∀ it : DisplayItem, it.base.metadata.pointing = none →
      it.hit_test point = none) := by
  refine ⟨?_, ?_, ?_, ?_⟩
  · intro hInt
    simp [DisplayItem.hit_test, DisplayItem.base, DisplayItem.bounds, hInt]
  · intro hclip hbounds hpt hInt
    simp [DisplayItem.hit_test, DisplayItem.base, DisplayItem.bounds, hclip,
      hbounds, hpt, hInt]
  · intro bb off col br sr bradius m
    simp [DisplayItem.hit_test]
  · intro it hp
    simp [DisplayItem.hit_test, hp]

/-- C9 witness: the rules evaluated on a concrete border item, band point
and interior point. -/
theorem C9_hit_test_rules_witness :
    ((borderInteriorRect (exSolid 0 .Content 0).base.bounds
        ⟨10, 10, 10, 10⟩).contains ⟨30, 30⟩ = true →
      (DisplayItem.Border (exSolid 0 .Content 0).base ⟨10, 10, 10, 10⟩
        ⟨⟨0, 0⟩, ⟨0, 0⟩, ⟨0, 0⟩, ⟨0, 0⟩⟩).hit_test ⟨30, 30⟩ = none) ∧
    ((exSolid 0 .Content 0).base.clip.might_intersect_point ⟨30, 30⟩ =
        true →
      (exSolid 0 .Content 0).base.bounds.contains ⟨30, 30⟩ = true →
      (exSolid 0 .Content 0).base.metadata.pointing.isNone = false →
      (borderInteriorRect (exSolid 0 .Content 0).base.bounds
        ⟨10, 10, 10, 10⟩).contains ⟨30, 30⟩ = false →
      (DisplayItem.Border (exSolid 0 .Content 0).base ⟨10, 10, 10, 10⟩
        ⟨⟨0, 0⟩, ⟨0, 0⟩, ⟨0, 0⟩, ⟨0, 0⟩⟩).hit_test ⟨30, 30⟩ =
          some (exSolid 0 .Content 0).base.metadata) ∧
    (∀ bb off col br sr bradius m,
      (DisplayItem.BoxShadow (exSolid 0 .Content 0).base bb off col br sr
        bradius m).hit_test ⟨30, 30⟩ = none) ∧
    (∀ it : DisplayItem, it.base.metadata.pointing = none →
      it.hit_test ⟨30, 30⟩ = none) :=
  C9_hit_test_rules (exSolid 0 .Content 0).base ⟨10, 10, 10, 10⟩
    ⟨⟨0, 0⟩, ⟨0, 0⟩, ⟨0, 0⟩, ⟨0, 0⟩⟩ ⟨30, 30⟩

/-- C10: on a freshly created full traversal the next index is 0 and
`previous_item_id` takes the `usize` underflow (modelled `none`); after any
successful `next` the cursor is positive and `previous_item_id` is the
well-defined `next_item_index - 1`. -/
theorem C10_previous_item_id_underflow (dl : DisplayList) :
    (DisplayListTraversal.new dl).next_item_index = 0 ∧
    (DisplayListTraversal.new dl).previous_item_id = none ∧
    ∀ (t : DisplayListTraversal) (it : DisplayItem)
      (t' : DisplayListTraversal), t.next = some (it, t') →
      t'.previous_item_id = some (t'.next_item_index - 1) := by
  refine ⟨rfl, rfl, ?_⟩
  intro t it t' h
  have hc := DisplayListTraversal.next_cursor
    (t.last_item_index - t.next_item_index) t (Nat.le_refl _) it t' h
  rw [DisplayListTraversal.previous_item_id, if_neg (by omega)]

/-- C10 witness: one consumed item on a concrete list, then
`previous_item_id` returns index 0. -/
theorem C10_previous_item_id_underflow_witness :
    (DisplayListTraversal.new exListC6).next_item_index = 0 ∧
    (DisplayListTraversal.new exListC6).previous_item_id = none ∧
    ∀ (t : DisplayListTraversal) (it : DisplayItem)
      (t' : DisplayListTraversal), t.next = some (it, t') →
      t'.previous_item_id = some (t'.next_item_index - 1) :=
  C10_previous_item_id_underflow exListC6

/-- C7 amended witness: the amended statement evaluated on the concrete
parent/child pair. -/
theorem C7_add_child_overflow_amended_witness :
    exChildC7.context_type = StackingContextType.Real ∧
    ((exParentC7.add_child exChildC7).children =
        exParentC7.children ++ [exChildC7.update_overflow_for_all_children] ∧
     (exParentC7.add_child exChildC7).overflow = exParentC7.overflow ∧
     ∀ gc ∈ exChildC7.children,
       gc.context_type = StackingContextType.Real →
       gc.overflow_rect_in_parent_space.subsetOf
         exChildC7.update_overflow_for_all_children.overflow) :=
  ⟨rfl, C7_add_child_overflow_amended exParentC7 exChildC7 rfl⟩

end Gfx
